import Mathlib

/-!
Verification of the Playtomic club-analytics agent (`llm_agent.py`).

This file gives a shallow embedding of the pure parts of the source:
the timestamp/timezone helpers, the price parser, the analytical view
builders, and the conversation orchestration loop, followed by theorems
settling the frozen claims about them.

Modelling conventions:
* Python floats are modelled as exact rationals (`ℚ`); `round(x, n)` is
  modelled as round-half-to-even on rationals.  Binary floating-point
  representation error is not modelled.
* Python dicts are modelled as insertion-ordered association lists.
* A timezone (`zoneinfo.ZoneInfo`) is modelled as a fixed UTC offset in
  seconds.  This is exact for the club default `America/Cancun` (UTC-5,
  no DST since 2015); DST-observing zones are not modelled.  Real
  timezone offsets satisfy `|offset| < 86400`, which is the range in
  which `addSeconds` below agrees with `datetime.astimezone`.
* `datetime.strptime` is modelled for canonical zero-padded inputs
  (the formats `%Y-%m-%dT%H:%M:%S` and `%Y-%m-%d` with all fields
  zero-padded to full width); Python additionally accepts non-padded
  digit runs, which never arise in this code's data flow.
* Fallible fetches (`api.get_availability`, `api.get_players`) are
  modelled as `Except String` values supplied to the builders; a raised
  exception corresponds to `.error`.
-/

namespace Playtomic

/-! ## Python string helpers -/

/-- Whitespace characters recognised by Python's `str.split()` / `str.strip()`. -/
def pyIsSpace (c : Char) : Bool :=
  c = ' ' || c = '\t' || c = '\n' || c = '\r' || c = '\x0b' || c = '\x0c'

/-- Python `str.strip()`: remove leading and trailing whitespace. -/
def pyStrip (s : String) : String :=
  ⟨(s.data.dropWhile pyIsSpace).reverse.dropWhile pyIsSpace |>.reverse⟩

/-- Worker for `pySplit`: `cur` holds the current token's characters in
reverse. -/
def pySplitGo : List Char → List Char → List String
  | [], cur => if cur.isEmpty then [] else [⟨cur.reverse⟩]
  | c :: rest, cur =>
    if pyIsSpace c then
      if cur.isEmpty then pySplitGo rest [] else ⟨cur.reverse⟩ :: pySplitGo rest []
    else pySplitGo rest (c :: cur)

/-- Python `str.split()` with no separator: split on whitespace runs, dropping
empty fields. -/
def pySplit (s : String) : List String := pySplitGo s.data []

/-- Python `str.lower()`, restricted to ASCII (sufficient for this code's data). -/
def lowerS (s : String) : String := ⟨s.data.map Char.toLower⟩

/-- List `needle` occurs as a contiguous run starting at the head of `hay`. -/
def leadsList : List Char → List Char → Bool
  | [], _ => true
  | _ :: _, [] => false
  | a :: as, b :: bs => a = b && leadsList as bs

/-- Python's substring test `needle in hay` on char lists. -/
def occursList (needle : List Char) : List Char → Bool
  | [] => needle.isEmpty
  | c :: rest => leadsList needle (c :: rest) || occursList needle rest

/-- Python's substring test `needle in hay` on strings. -/
def occursIn (needle hay : String) : Bool := occursList needle.data hay.data

/-- Lexicographic strict order on strings by Unicode code point, as used by
Python's `sorted` on `str` keys. -/
def strLtL : List Char → List Char → Bool
  | [], [] => false
  | [], _ :: _ => true
  | _ :: _, [] => false
  | a :: as, b :: bs =>
    if a.val < b.val then true else if b.val < a.val then false else strLtL as bs

/-- String strict order (see `strLtL`). -/
def strLt (a b : String) : Bool := strLtL a.data b.data

/-! ## Python float parsing and rounding -/

/-- Numeric value of a decimal digit character. -/
def dVal (c : Char) : Nat := c.toNat - 48

/-- Value of a digit run as a natural number (most significant first). -/
def digitsVal (l : List Char) : Nat := l.foldl (fun acc c => acc * 10 + dVal c) 0

/-- Parse an unsigned integer digit run; `none` if empty or non-digits present. -/
def parseNat? (l : List Char) : Option Nat :=
  if l ≠ [] && l.all Char.isDigit then some (digitsVal l) else none

/-- Mantissa of a float literal: `digits`, `digits.digits`, `digits.` or
`.digits`, with at least one digit overall.  Returns the exact rational. -/
def parseMantissa? (l : List Char) : Option ℚ :=
  let intPart := l.takeWhile Char.isDigit
  let rest := l.dropWhile Char.isDigit
  match rest with
  | [] => if intPart = [] then none else some (digitsVal intPart)
  | '.' :: frac =>
    if frac.all Char.isDigit && (intPart ≠ [] || frac ≠ []) && (intPart ++ frac ≠ []) then
      some ((digitsVal intPart : ℚ) + (digitsVal frac : ℚ) / (10 : ℚ) ^ frac.length)
    else none
  | _ => none

/-- Signed power of ten for the exponent part. -/
def tenPow (e : Int) : ℚ := if 0 ≤ e then (10 : ℚ) ^ e.toNat else 1 / (10 : ℚ) ^ (-e).toNat

/-- Model of Python's `float(str)` on a whitespace-free token, as an exact
rational: optional sign, decimal mantissa, optional exponent.  The special
forms `inf`/`nan` and digit-group underscores are not modelled (they cannot
be represented in `ℚ` / never arise in price strings). -/
def pyFloat? (s : String) : Option ℚ :=
  let signed : List Char → Option ℚ := fun l =>
    let core : List Char → Option ℚ := fun m =>
      match m.span (fun c => c ≠ 'e' && c ≠ 'E') with
      | (mant, []) => parseMantissa? mant
      | (mant, _ :: ex) =>
        let expPart : Option Int :=
          match ex with
          | '+' :: ds => (parseNat? ds).map (fun n => (n : Int))
          | '-' :: ds => (parseNat? ds).map (fun n => -(n : Int))
          | ds => (parseNat? ds).map (fun n => (n : Int))
        match parseMantissa? mant, expPart with
        | some q, some e => some (q * tenPow e)
        | _, _ => none
    match l with
    | '+' :: rest => core rest
    | '-' :: rest => (core rest).map Neg.neg
    | rest => core rest
  signed s.data

/-- Model of `_parse_price` (llm_agent.py:260-267): first whitespace token of
the price string parsed as a float; `0.0` on empty or unparsable input. -/
def parse_price (price_str : String) : ℚ :=
  if price_str = "" then 0
  else
    match (pySplit price_str).head? with
    | none => 0
    | some tok => (pyFloat? tok).getD 0

/-- Round-half-to-even to an integer, the rounding used by Python's `round`
(modulo binary float representation, which is not modelled). -/
def rhe (q : ℚ) : ℤ :=
  let f := ⌊q⌋
  let r := q - (f : ℚ)
  if r < 1 / 2 then f
  else if 1 / 2 < r then f + 1
  else if f % 2 = 0 then f else f + 1

/-- Python `round(x, 1)` on rationals. -/
def round1 (q : ℚ) : ℚ := (rhe (q * 10) : ℚ) / 10

/-- Python `round(x, 2)` on rationals. -/
def round2 (q : ℚ) : ℚ := (rhe (q * 100) : ℚ) / 100

/-! ## Calendar model

Python `datetime` objects are modelled structurally as `DT`
(year/month/day/hour/minute/second); `astimezone` to a fixed-offset zone is
modelled by `addSeconds`, which renormalises across at most one day
boundary (valid for any real timezone offset, `|z| < 86400` seconds). -/

structure DT where
  y : Nat
  m : Nat
  d : Nat
  h : Nat
  mi : Nat
  s : Nat
  deriving DecidableEq

/-- Gregorian leap year test. -/
def isLeap (y : Nat) : Bool := y % 4 = 0 && (y % 100 ≠ 0 || y % 400 = 0)

/-- Days in a month of the proleptic Gregorian calendar. -/
def daysInMonth (y m : Nat) : Nat :=
  if m = 2 then (if isLeap y then 29 else 28)
  else if m = 4 || m = 6 || m = 9 || m = 11 then 30 else 31

/-- Valid calendar date (as accepted by Python's `datetime`). -/
def validDate (y m d : Nat) : Prop :=
  1 ≤ m ∧ m ≤ 12 ∧ 1 ≤ d ∧ d ≤ daysInMonth y m

instance (y m d : Nat) : Decidable (validDate y m d) := by
  unfold validDate; infer_instance

/-- Valid datetime fields. -/
def validDT (dt : DT) : Prop :=
  validDate dt.y dt.m dt.d ∧ dt.h ≤ 23 ∧ dt.mi ≤ 59 ∧ dt.s ≤ 59

instance (dt : DT) : Decidable (validDT dt) := by
  unfold validDT; infer_instance

/-- Calendar successor of a date. -/
def nextDate (ymd : Nat × Nat × Nat) : Nat × Nat × Nat :=
  let y := ymd.1; let m := ymd.2.1; let d := ymd.2.2
  if d < daysInMonth y m then (y, m, d + 1)
  else if m < 12 then (y, m + 1, 1)
  else (y + 1, 1, 1)

/-- Calendar predecessor of a date. -/
def prevDate (ymd : Nat × Nat × Nat) : Nat × Nat × Nat :=
  let y := ymd.1; let m := ymd.2.1; let d := ymd.2.2
  if 1 < d then (y, m, d - 1)
  else if 1 < m then (y, m - 1, daysInMonth y (m - 1))
  else (y - 1, 12, 31)

/-- Rebuild a `DT` from a date and a second-of-day. -/
def mkDT (ymd : Nat × Nat × Nat) (t : Int) : DT :=
  let tn := t.toNat
  ⟨ymd.1, ymd.2.1, ymd.2.2, tn / 3600, tn % 3600 / 60, tn % 60⟩

/-- Second-of-day of a datetime. -/
def todOf (dt : DT) : Int := dt.h * 3600 + dt.mi * 60 + dt.s

/-- Model of `dt.astimezone(tz)` for a fixed offset of `z` seconds applied to
a UTC datetime: shift the wall clock by `z`, crossing at most one day
boundary.  Agrees with Python exactly when `|z| < 86400` (true of every real
timezone) and the result year stays within `datetime`'s range. -/
def addSeconds (dt : DT) (z : Int) : DT :=
  let t := todOf dt + z
  if t < 0 then mkDT (prevDate (dt.y, dt.m, dt.d)) (t + 86400)
  else if t < 86400 then mkDT (dt.y, dt.m, dt.d) t
  else mkDT (nextDate (dt.y, dt.m, dt.d)) (t - 86400)

/-- Python `datetime.weekday()` (Monday = 0), via Sakamoto's congruence. -/
def weekdayOf (y m d : Nat) : Nat :=
  let y' := if m < 3 then y - 1 else y
  let t := [0, 3, 2, 5, 0, 3, 5, 1, 4, 6, 2, 4]
  (y' + y' / 4 - y' / 100 + y' / 400 + t.getD (m - 1) 0 + d + 6) % 7

/-! ## Timestamp formatting and parsing -/

/-- Digit character for a value `0-9`. -/
def dChar (n : Nat) : Char := Char.ofNat (48 + n)

/-- Two zero-padded decimal digits. -/
def pad2l (n : Nat) : List Char := [dChar (n / 10), dChar (n % 10)]

/-- Four zero-padded decimal digits. -/
def pad4l (n : Nat) : List Char := [dChar (n / 1000), dChar (n / 100 % 10), dChar (n / 10 % 10), dChar (n % 10)]

/-- Two zero-padded digits as a string (`f"{n:02d}"`). -/
def pad2s (n : Nat) : String := ⟨pad2l n⟩

/-- Model of `strftime("%Y-%m-%dT%H:%M:%S")`.  Zero-pads the year to four
digits (what CPython produces for years ≥ 1000 on every platform; padding
below 1000 is platform-specific in the source). -/
def fmtIso (dt : DT) : String :=
  ⟨pad4l dt.y ++ '-' :: pad2l dt.m ++ '-' :: pad2l dt.d ++
    'T' :: pad2l dt.h ++ ':' :: pad2l dt.mi ++ ':' :: pad2l dt.s⟩

/-- Model of `strftime("%Y-%m-%d")`. -/
def fmtDateOnly (dt : DT) : String :=
  ⟨pad4l dt.y ++ '-' :: pad2l dt.m ++ '-' :: pad2l dt.d⟩

/-- Model of `strftime("%-I:%M %p")`: 12-hour clock with no leading zero. -/
def fmtReadable (dt : DT) : String :=
  let hr12 := if dt.h % 12 = 0 then 12 else dt.h % 12
  toString hr12 ++ ":" ++ pad2s dt.mi ++ (if dt.h < 12 then " AM" else " PM")

/-- Parse two digit characters. -/
def num2 (a b : Char) : Option Nat :=
  if a.isDigit && b.isDigit then some (dVal a * 10 + dVal b) else none

/-- Parse four digit characters. -/
def num4 (a b c d : Char) : Option Nat :=
  if a.isDigit && b.isDigit && c.isDigit && d.isDigit then
    some (((dVal a * 10 + dVal b) * 10 + dVal c) * 10 + dVal d)
  else none

/-- List-level worker for `parseDateTime19`. -/
def parseDT19L : List Char → Option DT
  | [y1, y2, y3, y4, c1, m1, m2, c2, d1, d2, c3, h1, h2, c4, i1, i2, c5, x1, x2] =>
    if c1 = '-' ∧ c2 = '-' ∧ c3 = 'T' ∧ c4 = ':' ∧ c5 = ':' then
      match num4 y1 y2 y3 y4, num2 m1 m2, num2 d1 d2, num2 h1 h2, num2 i1 i2, num2 x1 x2 with
      | some y, some mo, some da, some ho, some mi, some se =>
        if 1 ≤ y ∧ validDate y mo da ∧ ho ≤ 23 ∧ mi ≤ 59 ∧ se ≤ 59 then
          some ⟨y, mo, da, ho, mi, se⟩
        else none
      | _, _, _, _, _, _ => none
    else none
  | _ => none

/-- Model of `datetime.strptime(s, "%Y-%m-%dT%H:%M:%S")` on canonical
zero-padded input, with the validity checks `datetime` performs;
`none` corresponds to the `ValueError` caught by the caller. -/
def parseDateTime19 (str : String) : Option DT := parseDT19L str.data

/-- List-level worker for `parseDate10`. -/
def parseD10L : List Char → Option (Nat × Nat × Nat)
  | [y1, y2, y3, y4, c1, m1, m2, c2, d1, d2] =>
    if c1 = '-' ∧ c2 = '-' then
      match num4 y1 y2 y3 y4, num2 m1 m2, num2 d1 d2 with
      | some y, some mo, some da =>
        if 1 ≤ y ∧ validDate y mo da then some (y, mo, da) else none
      | _, _, _ => none
    else none
  | _ => none

/-- Model of `datetime.strptime(s, "%Y-%m-%d")` on canonical input. -/
def parseDate10 (str : String) : Option (Nat × Nat × Nat) := parseD10L str.data

/-- Python's `"T" in utc_str`. -/
def hasTChar (s : String) : Bool := decide ('T' ∈ s.data)

/-- Python slice `s[:n]`. -/
def takeStr (n : Nat) (s : String) : String := ⟨s.data.take n⟩

/-! ## Time normalizer (llm_agent.py:29-65), parametrised by the club's
fixed UTC offset `tz` in seconds instead of the module-global `_club_tz`. -/

/-- Model of `_utc_to_local_dt`. -/
def utc_to_local_dt (tz : Int) (utc_str : String) : Option DT :=
  if utc_str = "" || !hasTChar utc_str then none
  else
    match parseDateTime19 (takeStr 19 utc_str) with
    | some dt => some (addSeconds dt tz)
    | none => none

/-- Model of `_utc_to_local`. -/
def utc_to_local (tz : Int) (utc_str : String) : String :=
  match utc_to_local_dt tz utc_str with
  | some dt => fmtIso dt
  | none => utc_str

/-- Model of `_utc_to_local_date`. -/
def utc_to_local_date (tz : Int) (utc_str : String) : String :=
  match utc_to_local_dt tz utc_str with
  | some dt => fmtDateOnly dt
  | none => if utc_str = "" then "" else takeStr 10 utc_str

/-- Model of `_utc_to_readable_time`. -/
def utc_to_readable_time (tz : Int) (utc_str : String) : String :=
  match utc_to_local_dt tz utc_str with
  | some dt => fmtReadable dt
  | none => utc_str

/-- Model of `_utc_to_local_hour`. -/
def utc_to_local_hour (tz : Int) (utc_str : String) : Nat :=
  match utc_to_local_dt tz utc_str with
  | some dt => dt.h
  | none => 0

/-! ## Raw records

JSON dictionaries from the gateway are modelled structurally.  Fields read
with `dict.get(key, default)` are `Option`-typed; the `.get` default is
applied at each use site, exactly as in the source. -/

structure Participant where
  name : Option String
  email : Option String
  participant_type : Option String
  participant_id : Option String
  deriving DecidableEq

structure Booking where
  resource_name : Option String
  booking_start_date : Option String
  booking_end_date : Option String
  is_canceled : Bool
  status : Option String
  booking_type : Option String
  payment_status : Option String
  price : Option String
  origin : Option String
  participants : List Participant
  deriving DecidableEq

structure Slot where
  start_time : Option String
  duration : Option Int
  deriving DecidableEq

structure Resource where
  resource_id : Option String
  slots : List Slot
  deriving DecidableEq

structure Sport where
  sport_id : Option String
  level_value : Option ℚ
  deriving DecidableEq

structure Player where
  name : Option String
  sports : List Sport
  deriving DecidableEq

/-- Model of `_extract_participants` (llm_agent.py:275-283). -/
def extract_participants (b : Booking) : List String :=
  let names := b.participants.foldl
    (fun acc p => let n := pyStrip (p.name.getD ""); if n ≠ "" then acc ++ [n] else acc) []
  if names = [] then ["Desconocido"] else names

/-! ## Insertion-ordered dictionaries and Python's stable sort -/

/-- Keys of an association list. -/
def keysOf {α β : Type} (l : List (α × β)) : List α := l.map Prod.fst

/-- First-match lookup with a default, modelling `dict` access. -/
def getCount {α : Type} [DecidableEq α] : List (α × Nat) → α → Nat
  | [], _ => 0
  | (k', n) :: rest, k => if k' = k then n else getCount rest k

/-- Model of `d.setdefault(k, 0); d[k] += 1` on an insertion-ordered dict. -/
def bump {α : Type} [DecidableEq α] : List (α × Nat) → α → List (α × Nat)
  | [], k => [(k, 1)]
  | (k', n) :: rest, k =>
    if k' = k then (k', n + 1) :: rest else (k', n) :: bump rest k

/-- Apply `bump` when an optional key is present; models the loop body
`try: ...; d.setdefault(day, 0); d[day] += 1; except ValueError: pass`. -/
def bumpOpt {α : Type} [DecidableEq α] (acc : List (α × Nat)) (o : Option α) :
    List (α × Nat) :=
  match o with
  | some k => bump acc k
  | none => acc

/-- Model of `d[k] = v` on an insertion-ordered dict: overwrite in place,
or append a new key. -/
def assocSet {α β : Type} [DecidableEq α] : List (α × β) → α → β → List (α × β)
  | [], k, v => [(k, v)]
  | (k', v') :: rest, k, v =>
    if k' = k then (k', v) :: rest else (k', v') :: assocSet rest k v

/-- Model of `d.setdefault(k, []); d[k].append(v)`. -/
def appendGroup {α β : Type} [DecidableEq α] : List (α × List β) → α → β → List (α × List β)
  | [], k, v => [(k, [v])]
  | (k', vs) :: rest, k, v =>
    if k' = k then (k', vs ++ [v]) :: rest else (k', vs) :: appendGroup rest k v

/-- Count/revenue pair used by the revenue summary's group dicts. -/
structure Agg where
  count : Nat
  revenue : ℚ
  deriving DecidableEq

/-- Model of `d.setdefault(k, {count: 0, revenue: 0}); d[k].count += 1;
d[k].revenue += p`. -/
def addAgg : List (String × Agg) → String → ℚ → List (String × Agg)
  | [], k, p => [(k, ⟨1, p⟩)]
  | (k', a) :: rest, k, p =>
    if k' = k then (k', ⟨a.count + 1, a.revenue + p⟩) :: rest
    else (k', a) :: addAgg rest k p

/-- Model of `d.setdefault(k, 0); d[k] += p` for rational values. -/
def addQ : List (String × ℚ) → String → ℚ → List (String × ℚ)
  | [], k, p => [(k, p)]
  | (k', v) :: rest, k, p =>
    if k' = k then (k', v + p) :: rest else (k', v) :: addQ rest k p

/-- Insert `x` before the first element it strictly precedes (`bef x y`),
after all elements it does not.  Folded left-to-right this is a stable
sort, matching Python's `sorted`/`list.sort`. -/
def insBy {α : Type} (bef : α → α → Bool) (x : α) : List α → List α
  | [] => [x]
  | y :: ys => if bef x y then x :: y :: ys else y :: insBy bef x ys

/-- Stable insertion sort with strict-precedence test `bef` (Python's
`sorted`: ascending when `bef` is `<` on keys; `reverse=True` when `bef`
is `>` on keys). -/
def sortBy {α : Type} (bef : α → α → Bool) (l : List α) : List α :=
  l.foldl (fun acc x => insBy bef x acc) []

/-- Strict order on (court, start-time) string pairs, as Python compares
the sort-key tuples in `get_booking_details`. -/
def pairLt (a b : String × String) : Bool :=
  strLt a.1 b.1 || (a.1 = b.1 && strLt a.2 b.2)

/-! ## View builders

Each `execute_get_*` function is embedded from the point after its
`strptime` date-argument validation and its gateway fetches: the fetched
records are parameters, with fallible secondary fetches passed as
`Except String` (an exception in the source is `.error`). -/

structure TimeSlotEntry where
  time : String
  start_iso : String
  players : List String
  type : String
  status : String
  payment_status : String
  price : String
  deriving DecidableEq

structure CourtInfo where
  bookings_count : Nat
  time_slots : List TimeSlotEntry
  deriving DecidableEq

structure OccupancyView where
  date : String
  total_bookings : Nat
  total_available_slots : Nat
  occupancy_percentage : ℚ
  courts : List (String × CourtInfo)
  available_slots_per_court : List (String × Nat)
  deriving DecidableEq

/-- Time-slot record built for each active booking (llm_agent.py:307-318). -/
def mkTimeSlot (tz : Int) (b : Booking) : TimeSlotEntry :=
  ⟨utc_to_readable_time tz (b.booking_start_date.getD "") ++ " - " ++
     utc_to_readable_time tz (b.booking_end_date.getD ""),
   utc_to_local tz (b.booking_start_date.getD ""),
   extract_participants b,
   b.booking_type.getD "UNKNOWN",
   b.status.getD "UNKNOWN",
   b.payment_status.getD "UNKNOWN",
   b.price.getD "0"⟩

/-- Availability dict built by the occupancy builder (llm_agent.py:322-329):
keyed by `resource_id`, a repeated id overwrites the earlier entry. -/
def availDict (availability : List Resource) : List (String × List (Option String × Int)) :=
  availability.foldl
    (fun acc r =>
      assocSet acc (r.resource_id.getD "Desconocido")
        (r.slots.map (fun s => (s.start_time, s.duration.getD 0))))
    []

/-- The `try: availability = api.get_availability(...) except Exception: pass`
block (llm_agent.py:293-297): a raised exception leaves `availability = []`. -/
def availResources (availRes : Except String (List Resource)) : List Resource :=
  match availRes with | .ok a => a | .error _ => []

/-- Model of `execute_get_occupancy_for_date` (llm_agent.py:286-353). -/
def execute_get_occupancy_for_date (tz : Int) (date_str : String)
    (bookings : List Booking) (availRes : Except String (List Resource)) : OccupancyView :=
  let availability := availResources availRes
  let courts := bookings.foldl
    (fun acc b =>
      if b.is_canceled then acc
      else appendGroup acc (b.resource_name.getD "Desconocido") (mkTimeSlot tz b))
    []
  let active := bookings.filter (fun b => !b.is_canceled)
  let available_slots := availDict availability
  let total_available := (available_slots.map (fun kv => kv.2.length)).sum
  let total_booked := active.length
  let occupancy_pct : ℚ :=
    if 0 < total_booked + total_available then
      round1 ((total_booked : ℚ) / ((total_booked : ℚ) + (total_available : ℚ)) * 100)
    else 0
  ⟨date_str, total_booked, total_available, occupancy_pct,
   courts.map (fun kv => (kv.1, ⟨kv.2.length, kv.2⟩)),
   available_slots.map (fun kv => (kv.1, kv.2.length))⟩

structure RevenueView where
  period : String
  total_revenue : ℚ
  total_bookings : Nat
  average_booking_value : ℚ
  by_payment_status : List (String × Agg)
  by_court : List (String × Agg)
  daily_revenue : List (String × ℚ)
  currency : String
  deriving DecidableEq

/-- The revenue group-by loops of `execute_get_revenue_summary`
(llm_agent.py:414-426), before output rounding. -/
def revenueByKey (key : Booking → String) (active : List Booking) : List (String × Agg) :=
  active.foldl (fun acc b => addAgg acc (key b) (parse_price (b.price.getD "0"))) []

/-- Payment-status group key (`b.get("payment_status", "UNKNOWN")`). -/
def payKey (b : Booking) : String := b.payment_status.getD "UNKNOWN"

/-- Court group key (`b.get("resource_name", "Desconocido")`). -/
def courtKey (b : Booking) : String := b.resource_name.getD "Desconocido"

/-- Model of `execute_get_revenue_summary` (llm_agent.py:396-449). -/
def execute_get_revenue_summary (tz : Int) (start_str end_str : String)
    (bookings : List Booking) : RevenueView :=
  let active := bookings.filter (fun b => !b.is_canceled)
  let total_revenue := (active.map (fun b => parse_price (b.price.getD "0"))).sum
  let avg_value : ℚ := if active.isEmpty then 0 else total_revenue / (active.length : ℚ)
  let by_payment := revenueByKey payKey active
  let by_court := revenueByKey courtKey active
  let by_date := active.foldl
    (fun acc b =>
      addQ acc (utc_to_local_date tz (b.booking_start_date.getD ""))
        (parse_price (b.price.getD "0")))
    []
  ⟨start_str ++ " to " ++ end_str,
   round2 total_revenue,
   active.length,
   round2 avg_value,
   by_payment.map (fun kv => (kv.1, ⟨kv.2.count, round2 kv.2.revenue⟩)),
   by_court.map (fun kv => (kv.1, ⟨kv.2.count, round2 kv.2.revenue⟩)),
   (sortBy (fun a b => strLt a.1 b.1) by_date).map (fun kv => (kv.1, round2 kv.2)),
   "EUR"⟩

structure Booker where
  name : String
  count : Nat
  deriving DecidableEq

/-- Model of `player_bookings.setdefault(pid, {name, count: 0})` followed by
`count += 1`: the stored name is the one seen first. -/
def bumpBooker : List (String × Booker) → String → String → List (String × Booker)
  | [], pid, nm => [(pid, ⟨nm, 1⟩)]
  | (pid', bk) :: rest, pid, nm =>
    if pid' = pid then (pid', ⟨bk.name, bk.count + 1⟩) :: rest
    else (pid', bk) :: bumpBooker rest pid nm

/-- Format a level bucket as `f"{level:.1f}"` (one decimal, half-to-even;
the sign of a negative zero is not modelled). -/
def fmt1 (q : ℚ) : String :=
  let n := rhe (q * 10)
  let a := n.natAbs
  (if n < 0 then "-" else "") ++ toString (a / 10) ++ "." ++ toString (a % 10)

structure MemberView where
  period : String
  total_registered_players : Nat
  active_players_in_period : Nat
  top_bookers : List Booker
  total_bookings : Nat
  avg_bookings_per_active_player : ℚ
  padel_level_distribution : List (String × Nat)
  deriving DecidableEq

/-- Model of `execute_get_member_insights` (llm_agent.py:452-504); the player
roster fetch is the fallible secondary fetch. -/
def execute_get_member_insights (_tz : Int) (start_str end_str : String)
    (playersRes : Except String (List Player)) (bookings : List Booking) : MemberView :=
  let players := match playersRes with | .ok p => p | .error _ => []
  let active := bookings.filter (fun b => !b.is_canceled)
  let player_bookings := active.foldl
    (fun acc b =>
      b.participants.foldl
        (fun acc2 p => bumpBooker acc2 (p.participant_id.getD "unknown") (p.name.getD "Desconocido"))
        acc)
    []
  let top_bookers := (sortBy (fun a b => b.count < a.count) (player_bookings.map Prod.snd)).take 10
  let levels := players.foldl
    (fun acc p =>
      p.sports.foldl
        (fun acc2 sp =>
          if sp.sport_id = some "PADEL" then bump acc2 (fmt1 (sp.level_value.getD 0)) else acc2)
        acc)
    []
  ⟨start_str ++ " to " ++ end_str,
   players.length,
   player_bookings.length,
   top_bookers,
   active.length,
   if player_bookings.isEmpty then 0 else round1 ((active.length : ℚ) / (player_bookings.length : ℚ)),
   sortBy (fun a b => strLt a.1 b.1) levels⟩

structure HourEntry where
  hour : String
  bookings : Nat
  deriving DecidableEq

structure AlertsView where
  period : String
  total_bookings : Nat
  total_canceled : Nat
  cancellation_rate_pct : ℚ
  peak_hours : List HourEntry
  quiet_hours : List HourEntry
  booking_type_distribution : List (String × Nat)
  day_of_week_distribution : List (String × Nat)
  unpaid_bookings : Nat
  unpaid_revenue_eur : ℚ
  alerts : List String
  deriving DecidableEq

/-- Fixed Monday-first weekday names (llm_agent.py:544). -/
def day_names : List String :=
  ["Lunes", "Martes", "Miércoles", "Jueves", "Viernes", "Sábado", "Domingo"]

/-- Hour label `f"{h:02d}:00"`. -/
def fmtHour (h : Nat) : String := pad2s h ++ ":00"

/-- Day-of-week name computed for one booking in the alerts builder
(llm_agent.py:546-549): local-date string, reparsed with `strptime`
(`none` = the caught `ValueError`), then indexed into `day_names`. -/
def dowNameOf (tz : Int) (b : Booking) : Option String :=
  (parseDate10 (utc_to_local_date tz (b.booking_start_date.getD ""))).map
    (fun ymd => day_names.getD (weekdayOf ymd.1 ymd.2.1 ymd.2.2) "")

/-- Approximate rendering of a Python float in an f-string, for the alert
messages (one decimal for rates).  Trailing-zero behaviour of `repr(float)`
is not modelled exactly; no claim depends on the alert strings. -/
def fmtRate (q : ℚ) : String := fmt1 q

/-- The `hour_counts` dict followed by `sorted(hour_counts.items(),
key=count, reverse=True)` of the alerts builder (llm_agent.py:527-533);
Python's sort is stable, so ties keep first-encounter order. -/
def sortedHoursOf (tz : Int) (bookings : List Booking) : List (Nat × Nat) :=
  sortBy (fun a b => b.2 < a.2)
    ((bookings.filter (fun b => !b.is_canceled)).foldl
      (fun acc b => bump acc (utc_to_local_hour tz (b.booking_start_date.getD ""))) [])

/-- Model of `execute_get_operational_alerts` (llm_agent.py:507-582). -/
def execute_get_operational_alerts (tz : Int) (start_str end_str : String)
    (bookings : List Booking) : AlertsView :=
  let active := bookings.filter (fun b => !b.is_canceled)
  let canceled := bookings.filter (fun b => b.is_canceled)
  let cancellation_rate : ℚ :=
    if bookings.isEmpty then 0
    else round1 ((canceled.length : ℚ) / (bookings.length : ℚ) * 100)
  let sorted_hours := sortedHoursOf tz bookings
  let peak_hours := (sorted_hours.take 5).map (fun hc => (⟨fmtHour hc.1, hc.2⟩ : HourEntry))
  let quiet_hours :=
    if 5 ≤ sorted_hours.length then
      (sorted_hours.drop (sorted_hours.length - 5)).map (fun hc => (⟨fmtHour hc.1, hc.2⟩ : HourEntry))
    else []
  let type_dist := active.foldl (fun acc b => bump acc (b.booking_type.getD "UNKNOWN")) []
  let dow_counts := active.foldl (fun acc b => bumpOpt acc (dowNameOf tz b)) []
  let unpaid := active.filter
    (fun b => b.payment_status = some "UNPAID" ∨ b.payment_status = some "PENDING")
  let unpaid_revenue := (unpaid.map (fun b => parse_price (b.price.getD "0"))).sum
  let alerts :=
    (if 15 < cancellation_rate then
       ["Alta tasa de cancelación: " ++ fmtRate cancellation_rate ++ "% (supera el umbral del 15%)"]
     else []) ++
    (if 0 < unpaid_revenue then
       ["Ingresos sin cobrar/pendientes: " ++ fmtRate (round2 unpaid_revenue) ++ " EUR en " ++
          toString unpaid.length ++ " reservas"]
     else []) ++
    (match quiet_hours with
     | q :: _ => ["Horario más subutilizado: " ++ q.hour]
     | [] => [])
  ⟨start_str ++ " to " ++ end_str,
   active.length, canceled.length, cancellation_rate,
   peak_hours, quiet_hours, type_dist, dow_counts,
   unpaid.length, round2 unpaid_revenue, alerts⟩

structure PDetail where
  name : String
  email : Option String
  participant_type_field : String
  deriving DecidableEq

structure BookingEntry where
  court : String
  time : String
  start_iso : String
  players : List String
  participant_details : List PDetail
  booking_type : String
  status : String
  is_canceled : Bool
  price : String
  payment_status : String
  origin : String
  deriving DecidableEq

structure FiltersApplied where
  court_name : Option String
  player_name : Option String
  include_canceled : Bool
  deriving DecidableEq

structure DetailsView where
  date : String
  filters_applied : FiltersApplied
  total_bookings : Nat
  bookings : List BookingEntry
  deriving DecidableEq

/-- The three `continue` guards of the booking-details loop
(llm_agent.py:630-645).  An optional filter string is applied only when
truthy (`if court_name:` / `if player_name:` — `None` and `""` skip). -/
def keepBooking (include_canceled : Bool) (court_name player_name : Option String)
    (b : Booking) : Bool :=
  (!b.is_canceled || include_canceled) &&
  (match court_name with
   | some c => c = "" || occursIn (lowerS c) (lowerS (b.resource_name.getD "Desconocido"))
   | none => true) &&
  (match player_name with
   | some pn =>
     pn = "" || (extract_participants b).any (fun p => occursIn (lowerS pn) (lowerS p))
   | none => true)

/-- Result record built for one booking (llm_agent.py:647-667). -/
def entryOf (tz : Int) (b : Booking) : BookingEntry :=
  ⟨b.resource_name.getD "Desconocido",
   utc_to_readable_time tz (b.booking_start_date.getD "") ++ " - " ++
     utc_to_readable_time tz (b.booking_end_date.getD ""),
   utc_to_local tz (b.booking_start_date.getD ""),
   extract_participants b,
   b.participants.map (fun p =>
     ⟨pyStrip (p.name.getD "Desconocido"),
      match p.email with | some e => if e = "" then none else some e | none => none,
      p.participant_type.getD "UNKNOWN"⟩),
   b.booking_type.getD "UNKNOWN",
   b.status.getD "UNKNOWN",
   b.is_canceled,
   b.price.getD "0",
   b.payment_status.getD "UNKNOWN",
   b.origin.getD "UNKNOWN"⟩

/-- Model of `execute_get_booking_details` (llm_agent.py:616-680). -/
def execute_get_booking_details (tz : Int) (date_str : String) (bookings : List Booking)
    (court_name player_name : Option String) (include_canceled : Bool) : DetailsView :=
  let results := (bookings.filter (keepBooking include_canceled court_name player_name)).map
    (entryOf tz)
  let sorted := sortBy (fun a b => pairLt (a.court, a.start_iso) (b.court, b.start_iso)) results
  ⟨date_str, ⟨court_name, player_name, include_canceled⟩, sorted.length, sorted⟩

/-! ## Conversation orchestrator (PlaytomicAgent, llm_agent.py:779-852)

The OpenAI model is abstracted as an oracle `List Msg → ModelReply` (the
source calls it with the full message history each iteration), and the
side-effecting tool executors as an oracle `ToolCall → Except String String`
giving either the serialized result dict or a raised exception's message. -/

structure Msg where
  role : String
  content : String
  deriving DecidableEq

structure ToolCall where
  id : String
  name : String
  args : String
  deriving DecidableEq

/-- A chat-completion reply: `content` (with `None` folded to `""`, as the
source does via `message.content or ""`) and the requested tool calls
(`None` folded to `[]`; `if not message.tool_calls:` checks emptiness). -/
structure ModelReply where
  content : String
  calls : List ToolCall
  deriving DecidableEq

/-- The keys of `TOOL_EXECUTORS` (llm_agent.py:685-710). -/
def toolNames : List String :=
  ["get_occupancy_for_date", "get_occupancy_for_range", "get_revenue_summary",
   "get_member_insights", "get_operational_alerts", "get_available_slots",
   "get_booking_details"]

/-- Error payload `json.dumps({"error": str(e)})`. -/
def jsonError (e : String) : String := "\x7b\"error\": \"" ++ e ++ "\"\x7d"

/-- Error payload for an unknown tool name. -/
def jsonUnknownTool (nm : String) : String :=
  "\x7b\"error\": \"Herramienta desconocida: " ++ nm ++ "\"\x7d"

/-- Dispatch one tool call after its arguments have been decoded
(llm_agent.py:835-844): the executor lookup and the `try/except Exception`
around the executor.  This part of the loop body never raises out — an
executor exception becomes an error payload — so it is a total function
returning the serialized result string for the tool message and the chart
entry accumulated on success (errors are not charted).  The
`json.loads(tool_call.function.arguments)` at line 833 is NOT part of this
function: it runs before it and outside the `try/except` (see
`processCalls`). -/
def runTool (execO : ToolCall → Except String String) (c : ToolCall) :
    String × Option (String × String) :=
  if toolNames.contains c.name then
    match execO c with
    | .ok r => (r, some (c.name, r))
    | .error e => (jsonError e, none)
  else (jsonUnknownTool c.name, none)

/-- The per-call sequencing of one model reply when no call raises
(llm_agent.py:831-850 with every `json.loads` succeeding): append a tool
message for each call and accumulate chart data.  Used to state what a
completed all-tool-call turn accumulates. -/
def runCalls (execO : ToolCall → Except String String) :
    List ToolCall → List Msg → List (String × String) → List Msg × List (String × String)
  | [], msgs, charts => (msgs, charts)
  | c :: rest, msgs, charts =>
    let rr := runTool execO c
    runCalls execO rest (msgs ++ [⟨"tool", rr.1⟩])
      (charts ++ (match rr.2 with | some ch => [ch] | none => []))

/-- Process the tool calls of one model reply in order
(llm_agent.py:831-850).  For each call,
`fn_args = json.loads(tool_call.function.arguments)` (line 833) runs FIRST
and OUTSIDE the `try/except` of lines 837-842: when it raises — modelled by
`jsonOK c.args = false`, where `jsonOK` abstracts the success of
`json.loads` on the raw arguments string, exactly as the model itself is
abstracted as an oracle — the exception propagates out of the whole turn
(`.error`), carrying the messages appended so far (they remain on the
agent); the chart data accumulated in the local variable is lost.
Otherwise the dispatch (`runTool`) never raises out. -/
def processCalls (jsonOK : String → Bool) (execO : ToolCall → Except String String) :
    List ToolCall → List Msg → List (String × String) →
    Except (List Msg) (List Msg × List (String × String))
  | [], msgs, charts => .ok (msgs, charts)
  | c :: rest, msgs, charts =>
    if jsonOK c.args then
      let rr := runTool execO c
      processCalls jsonOK execO rest (msgs ++ [⟨"tool", rr.1⟩])
        (charts ++ (match rr.2 with | some ch => [ch] | none => []))
    else .error msgs

/-- The fixed fallback message returned when the iteration cap is reached
(llm_agent.py:852). -/
def giveUpMessage : String :=
  "Disculpa, no pude completar el análisis. Por favor intenta reformular tu pregunta."

/-- Normal result of one chat turn: final text, accumulated chart data, the
message history after the turn, and the number of model calls made. -/
structure ChatResult where
  text : String
  charts : List (String × String)
  messages : List Msg
  modelCalls : Nat
  deriving DecidableEq

/-- Outcome of one chat turn: either `chat` returns normally, or an
uncaught exception (the `json.loads` at llm_agent.py:833) escapes `chat` —
nothing is returned to the caller, but `self.messages` as mutated so far
remains on the agent, recorded here with the number of model calls made. -/
inductive TurnResult where
  | ok (r : ChatResult)
  | exn (messages : List Msg) (modelCalls : Nat)
  deriving DecidableEq

/-- The agent's message history after a turn, for both outcomes. -/
def TurnResult.messagesOf : TurnResult → List Msg
  | .ok r => r.messages
  | .exn msgs _ => msgs

/-- The number of model calls made during a turn, for both outcomes. -/
def TurnResult.callsOf : TurnResult → Nat
  | .ok r => r.modelCalls
  | .exn _ n => n

/-- The `for _ in range(max_iterations)` loop of `chat`
(llm_agent.py:817-852), with remaining fuel as the recursion measure; an
argument-decoding failure aborts the turn (`.exn`). -/
def chatLoop (oracle : List Msg → ModelReply) (execO : ToolCall → Except String String)
    (jsonOK : String → Bool) :
    Nat → List Msg → List (String × String) → TurnResult
  | 0, msgs, charts => .ok ⟨giveUpMessage, charts, msgs, 0⟩
  | n + 1, msgs, charts =>
    let r := oracle msgs
    let msgs1 := msgs ++ [⟨"assistant", r.content⟩]
    if r.calls.isEmpty then .ok ⟨r.content, charts, msgs1, 1⟩
    else
      match processCalls jsonOK execO r.calls msgs1 charts with
      | .error mAbort => .exn mAbort 1
      | .ok pr =>
        match chatLoop oracle execO jsonOK n pr.1 pr.2 with
        | .ok rest => .ok ⟨rest.text, rest.charts, rest.messages, rest.modelCalls + 1⟩
        | .exn m k => .exn m (k + 1)

/-- Model of `PlaytomicAgent.chat` (llm_agent.py:804-852): append the user
message, then loop up to `max_iterations = 5`. -/
def chat (oracle : List Msg → ModelReply) (execO : ToolCall → Except String String)
    (jsonOK : String → Bool) (messages : List Msg) (user_message : String) : TurnResult :=
  chatLoop oracle execO jsonOK 5 (messages ++ [⟨"user", user_message⟩]) []

/-- Model of the history built in `PlaytomicAgent.__init__`
(llm_agent.py:796-798). -/
def initMessages (system_prompt : String) : List Msg := [⟨"system", system_prompt⟩]

/-- Model of `PlaytomicAgent.reset_conversation` (llm_agent.py:800-802). -/
def reset_conversation (system_prompt : String) : List Msg :=
  [⟨"system", system_prompt⟩]

/-- Reference run of `n` tool-calling rounds with every argument string
decoding successfully, used to state what the capped loop returns when the
model never stops requesting tools. -/
def runRounds (oracle : List Msg → ModelReply) (execO : ToolCall → Except String String) :
    Nat → List Msg → List (String × String) → List Msg × List (String × String)
  | 0, msgs, charts => (msgs, charts)
  | n + 1, msgs, charts =>
    let r := oracle msgs
    let pr := runCalls execO r.calls (msgs ++ [⟨"assistant", r.content⟩]) charts
    runRounds oracle execO n pr.1 pr.2

/-- The message history carried by a `processCalls` outcome: the updated
history on success, the history at the point of the raise on abort. -/
def pcMsgs : Except (List Msg) (List Msg × List (String × String)) → List Msg
  | .ok pr => pr.1
  | .error m => m

/-! ## Auxiliary definitions used to state the claims -/

/-- A rational that is an exact multiple of a cent. -/
def Cents (q : ℚ) : Prop := ∃ n : ℤ, q = (n : ℚ) / 100

/-- Full-precision revenue total of a grouped dict. -/
def aggRevSum (l : List (String × Agg)) : ℚ := (l.map (fun kv => kv.2.revenue)).sum

/-- Number of distinct local start hours among the active bookings. -/
def distinctHours (tz : Int) (bs : List Booking) : Nat :=
  ((bs.filter (fun b => !b.is_canceled)).map
    (fun b => utc_to_local_hour tz (b.booking_start_date.getD ""))).toFinset.card

/-- Number of active (non-canceled) bookings. -/
def bookedCount (bs : List Booking) : Nat := (bs.filter (fun b => !b.is_canceled)).length

/-- The `total_available` count the occupancy builder computes: slots summed
over the availability dict (keyed by resource id, later duplicates
overwriting earlier entries). -/
def availCount (availRes : Except String (List Resource)) : Nat :=
  ((availDict (availResources availRes)).map (fun kv => kv.2.length)).sum

/-- Booking factory for concrete test inputs: an uncanceled booking with the
given court, payment status, price and start timestamp, and no participants. -/
def mkB (court pay price start : String) : Booking :=
  ⟨some court, some start, some start, false, none, none, some pay, some price, none, []⟩

/-- The history invariant of claim C6: the list starts with a
system-instruction message and contains exactly one message with the
system role. -/
def sysInvariant (msgs : List Msg) : Prop :=
  (∃ m t, msgs = m :: t ∧ m.role = "system")
  ∧ msgs.countP (fun m => m.role == "system") = 1

/-! ## General lemmas about the rounding model -/

theorem rhe_eq_floor_or_succ (q : ℚ) : rhe q = ⌊q⌋ ∨ rhe q = ⌊q⌋ + 1 := by
  simp only [rhe]
  split_ifs <;> simp

theorem rhe_intCast (n : ℤ) : rhe (n : ℚ) = n := by
  simp only [rhe, Int.floor_intCast]
  norm_num

theorem le_rhe_of_le (c : ℤ) (q : ℚ) (h : (c : ℚ) ≤ q) : c ≤ rhe q := by
  have hf : c ≤ ⌊q⌋ := Int.le_floor.mpr h
  rcases rhe_eq_floor_or_succ q with h1 | h1 <;> omega

theorem rhe_le_of_le (c : ℤ) (q : ℚ) (h : q ≤ (c : ℚ)) : rhe q ≤ c := by
  have hf : ⌊q⌋ ≤ c := by
    have h2 := Int.floor_le_floor h
    simpa using h2
  rcases lt_or_eq_of_le hf with hlt | heq
  · rcases rhe_eq_floor_or_succ q with h1 | h1 <;> omega
  · have hq : q = (c : ℚ) := by
      have h1 : (c : ℚ) ≤ q := by
        rw [← heq]; exact Int.floor_le q
      exact le_antisymm h h1
    subst hq
    rw [rhe_intCast]

theorem cents_add {a b : ℚ} (ha : Cents a) (hb : Cents b) : Cents (a + b) := by
  obtain ⟨n, rfl⟩ := ha
  obtain ⟨m, rfl⟩ := hb
  exact ⟨n + m, by push_cast; ring⟩

theorem cents_zero : Cents 0 := ⟨0, by norm_num⟩

theorem round2_cents {q : ℚ} (h : Cents q) : round2 q = q := by
  obtain ⟨n, rfl⟩ := h
  unfold round2
  have h1 : (n : ℚ) / 100 * 100 = (n : ℚ) := by ring
  rw [h1, rhe_intCast]

theorem cents_sum (l : List ℚ) (h : ∀ q ∈ l, Cents q) : Cents l.sum := by
  induction l with
  | nil => simpa using cents_zero
  | cons a t ih =>
    simp only [List.sum_cons]
    exact cents_add (h a (by simp)) (ih (fun q hq => h q (by simp [hq])))

/-! ## General lemmas about the dictionary and sorting models -/

theorem getCount_bump {α : Type} [DecidableEq α] (l : List (α × Nat)) (k0 k : α) :
    getCount (bump l k0) k = getCount l k + (if k = k0 then 1 else 0) := by
  induction l with
  | nil =>
    simp only [bump, getCount]
    by_cases h : k0 = k
    · subst h; simp
    · rw [if_neg h, if_neg (fun hh => h hh.symm)]
  | cons p rest ih =>
    obtain ⟨k', n⟩ := p
    by_cases h1 : k' = k0
    · subst h1
      rw [show bump ((k', n) :: rest) k' = (k', n + 1) :: rest from by simp [bump]]
      simp only [getCount]
      by_cases h2 : k' = k
      · rw [if_pos h2, if_pos h2, if_pos h2.symm]
      · rw [if_neg h2, if_neg h2, if_neg (fun hh : k = k' => h2 hh.symm)]
        omega
    · rw [show bump ((k', n) :: rest) k0 = (k', n) :: bump rest k0 from by simp [bump, h1]]
      simp only [getCount]
      by_cases h2 : k' = k
      · rw [if_pos h2, if_pos h2, if_neg (fun hh : k = k0 => h1 (h2.trans hh))]
        omega
      · rw [if_neg h2, if_neg h2, ih]

theorem keysOf_bump_mem {α : Type} [DecidableEq α] (l : List (α × Nat)) (k0 a : α) :
    a ∈ keysOf (bump l k0) ↔ a ∈ keysOf l ∨ a = k0 := by
  induction l with
  | nil => simp [bump, keysOf]
  | cons p rest ih =>
    obtain ⟨k', n⟩ := p
    simp only [bump]
    split_ifs with h1
    · subst h1
      simp only [keysOf, List.map_cons, List.mem_cons]
      tauto
    · simp only [keysOf, List.map_cons, List.mem_cons] at ih ⊢
      tauto

theorem keysOf_bump_nodup {α : Type} [DecidableEq α] (l : List (α × Nat)) (k0 : α)
    (h : (keysOf l).Nodup) : (keysOf (bump l k0)).Nodup := by
  induction l with
  | nil => simp [bump, keysOf]
  | cons p rest ih =>
    obtain ⟨k', n⟩ := p
    simp only [keysOf, List.map_cons, List.nodup_cons] at h
    simp only [bump]
    split_ifs with h1
    · subst h1
      simp only [keysOf, List.map_cons, List.nodup_cons]
      exact h
    · simp only [keysOf, List.map_cons, List.nodup_cons]
      refine ⟨?_, ih h.2⟩
      intro hmem
      rcases (keysOf_bump_mem rest k0 k').mp hmem with hm | hm
      · exact h.1 hm
      · exact h1 hm

theorem mem_insBy {α : Type} (bef : α → α → Bool) (x a : α) (l : List α) :
    a ∈ insBy bef x l ↔ a = x ∨ a ∈ l := by
  induction l with
  | nil => simp [insBy]
  | cons y ys ih =>
    by_cases h : bef x y = true
    · simp [insBy, h]
    · simp only [insBy, if_neg h, List.mem_cons, ih]
      tauto

theorem length_insBy {α : Type} (bef : α → α → Bool) (x : α) (l : List α) :
    (insBy bef x l).length = l.length + 1 := by
  induction l with
  | nil => simp [insBy]
  | cons y ys ih =>
    by_cases h : bef x y = true <;> simp [insBy, h, ih]

theorem mem_sortBy_aux {α : Type} (bef : α → α → Bool) (l acc : List α) (a : α) :
    a ∈ l.foldl (fun acc x => insBy bef x acc) acc ↔ a ∈ acc ∨ a ∈ l := by
  induction l generalizing acc with
  | nil => simp
  | cons x xs ih =>
    simp only [List.foldl_cons, ih, mem_insBy, List.mem_cons]
    tauto

theorem mem_sortBy {α : Type} (bef : α → α → Bool) (l : List α) (a : α) :
    a ∈ sortBy bef l ↔ a ∈ l := by
  unfold sortBy
  rw [mem_sortBy_aux]
  simp

theorem length_sortBy_aux {α : Type} (bef : α → α → Bool) (l acc : List α) :
    (l.foldl (fun acc x => insBy bef x acc) acc).length = acc.length + l.length := by
  induction l generalizing acc with
  | nil => simp
  | cons x xs ih =>
    simp only [List.foldl_cons, ih, length_insBy, List.length_cons]
    omega

theorem length_sortBy {α : Type} (bef : α → α → Bool) (l : List α) :
    (sortBy bef l).length = l.length := by
  unfold sortBy
  rw [length_sortBy_aux]
  simp

theorem getCount_foldBumpOpt {α β : Type} [DecidableEq α] (f : β → Option α)
    (l : List β) (acc : List (α × Nat)) (k : α) :
    getCount (l.foldl (fun a b => bumpOpt a (f b)) acc) k
      = getCount acc k + l.countP (fun b => decide (f b = some k)) := by
  induction l generalizing acc with
  | nil => simp
  | cons b t ih =>
    simp only [List.foldl_cons, List.countP_cons]
    cases hf : f b with
    | none =>
      rw [show bumpOpt acc none = acc from rfl]
      rw [ih]
      simp
    | some key =>
      rw [show bumpOpt acc (some key) = bump acc key from rfl]
      rw [ih, getCount_bump]
      by_cases hk : k = key
      · subst hk
        simp
        omega
      · have hne : ¬ key = k := fun hh => hk hh.symm
        simp [hk, hne]

theorem keysOf_foldBumpOpt_mem {α β : Type} [DecidableEq α] (f : β → Option α)
    (l : List β) (acc : List (α × Nat)) (a : α) :
    a ∈ keysOf (l.foldl (fun a b => bumpOpt a (f b)) acc) ↔
      a ∈ keysOf acc ∨ ∃ b ∈ l, f b = some a := by
  induction l generalizing acc with
  | nil => simp
  | cons b t ih =>
    simp only [List.foldl_cons, List.mem_cons]
    cases hf : f b with
    | none =>
      rw [show bumpOpt acc none = acc from rfl]
      rw [ih]
      constructor
      · intro h
        rcases h with h | ⟨b', hb', he⟩
        · exact Or.inl h
        · exact Or.inr ⟨b', Or.inr hb', he⟩
      · intro h
        rcases h with h | ⟨b', hb', he⟩
        · exact Or.inl h
        · rcases hb' with hb' | hb'
          · subst hb'
            rw [hf] at he
            cases he
          · exact Or.inr ⟨b', hb', he⟩
    | some key =>
      rw [show bumpOpt acc (some key) = bump acc key from rfl]
      rw [ih]
      rw [keysOf_bump_mem]
      constructor
      · intro h
        rcases h with (h | h) | ⟨b', hb', he⟩
        · exact Or.inl h
        · exact Or.inr ⟨b, Or.inl rfl, by rw [hf, h]⟩
        · exact Or.inr ⟨b', Or.inr hb', he⟩
      · intro h
        rcases h with h | ⟨b', hb', he⟩
        · exact Or.inl (Or.inl h)
        · rcases hb' with hb' | hb'
          · subst hb'
            rw [hf] at he
            cases he
            exact Or.inl (Or.inr rfl)
          · exact Or.inr ⟨b', hb', he⟩

theorem keysOf_foldBump_mem {α β : Type} [DecidableEq α] (g : β → α)
    (l : List β) (acc : List (α × Nat)) (a : α) :
    a ∈ keysOf (l.foldl (fun acc b => bump acc (g b)) acc) ↔
      a ∈ keysOf acc ∨ a ∈ l.map g := by
  induction l generalizing acc with
  | nil => simp
  | cons b t ih =>
    simp only [List.foldl_cons, List.map_cons, List.mem_cons, ih, keysOf_bump_mem]
    tauto

theorem keysOf_foldBump_nodup {α β : Type} [DecidableEq α] (g : β → α)
    (l : List β) (acc : List (α × Nat)) (h : (keysOf acc).Nodup) :
    (keysOf (l.foldl (fun acc b => bump acc (g b)) acc)).Nodup := by
  induction l generalizing acc with
  | nil => simpa using h
  | cons b t ih =>
    simp only [List.foldl_cons]
    exact ih _ (keysOf_bump_nodup acc (g b) h)

theorem length_foldBump_eq_card {α β : Type} [DecidableEq α] (g : β → α) (l : List β) :
    (l.foldl (fun acc b => bump acc (g b)) []).length = (l.map g).toFinset.card := by
  set res := l.foldl (fun acc b => bump acc (g b)) [] with hres
  have hnd : (keysOf res).Nodup := keysOf_foldBump_nodup g l [] (by simp [keysOf])
  have hset : (keysOf res).toFinset = (l.map g).toFinset := by
    apply Finset.ext
    intro a
    simp only [List.mem_toFinset]
    rw [hres, keysOf_foldBump_mem]
    simp [keysOf]
  have hlen : res.length = (keysOf res).length := by
    simp [keysOf]
  rw [hlen, ← List.toFinset_card_of_nodup hnd, hset]

theorem aggRevSum_addAgg (l : List (String × Agg)) (k : String) (p : ℚ) :
    aggRevSum (addAgg l k p) = aggRevSum l + p := by
  induction l with
  | nil => simp [addAgg, aggRevSum]
  | cons kv rest ih =>
    obtain ⟨k', a⟩ := kv
    by_cases h : k' = k
    · simp [addAgg, h, aggRevSum]
      ring
    · simp only [addAgg, if_neg h, aggRevSum, List.map_cons, List.sum_cons] at ih ⊢
      rw [ih]
      ring

theorem aggRevSum_revenueByKey_aux (key : Booking → String) (l : List Booking)
    (acc : List (String × Agg)) :
    aggRevSum (l.foldl (fun acc b => addAgg acc (key b) (parse_price (b.price.getD "0"))) acc)
      = aggRevSum acc + (l.map (fun b => parse_price (b.price.getD "0"))).sum := by
  induction l generalizing acc with
  | nil => simp
  | cons b t ih =>
    simp only [List.foldl_cons, List.map_cons, List.sum_cons, ih, aggRevSum_addAgg]
    ring

theorem aggRevSum_revenueByKey (key : Booking → String) (l : List Booking) :
    aggRevSum (revenueByKey key l) = (l.map (fun b => parse_price (b.price.getD "0"))).sum := by
  unfold revenueByKey
  rw [aggRevSum_revenueByKey_aux]
  simp [aggRevSum]

theorem cents_addAgg (l : List (String × Agg)) (k : String) (p : ℚ)
    (hl : ∀ e ∈ l, Cents e.2.revenue) (hp : Cents p) :
    ∀ e ∈ addAgg l k p, Cents e.2.revenue := by
  induction l with
  | nil =>
    intro e he
    simp only [addAgg, List.mem_singleton] at he
    subst he
    simpa using cents_add cents_zero hp
  | cons kv rest ih =>
    obtain ⟨k', a⟩ := kv
    by_cases h : k' = k
    · intro e he
      simp only [addAgg, if_pos h, List.mem_cons] at he
      rcases he with he | he
      · subst he
        exact cents_add (hl (k', a) (by simp)) hp
      · exact hl e (by simp [he])
    · intro e he
      simp only [addAgg, if_neg h, List.mem_cons] at he
      rcases he with he | he
      · subst he
        exact hl (k', a) (by simp)
      · exact ih (fun e' he' => hl e' (by simp [he'])) e he

theorem cents_revenueByKey_aux (key : Booking → String) (l : List Booking)
    (acc : List (String × Agg))
    (hl : ∀ b ∈ l, Cents (parse_price (b.price.getD "0")))
    (hacc : ∀ e ∈ acc, Cents e.2.revenue) :
    ∀ e ∈ l.foldl (fun acc b => addAgg acc (key b) (parse_price (b.price.getD "0"))) acc,
      Cents e.2.revenue := by
  induction l generalizing acc with
  | nil => simpa using hacc
  | cons b t ih =>
    simp only [List.foldl_cons]
    exact ih _ (fun b' hb' => hl b' (by simp [hb']))
      (cents_addAgg acc (key b) _ hacc (hl b (by simp)))

theorem aggRevSum_map_round2 (l : List (String × Agg))
    (h : ∀ e ∈ l, Cents e.2.revenue) :
    aggRevSum (l.map (fun kv => (kv.1, (⟨kv.2.count, round2 kv.2.revenue⟩ : Agg))))
      = aggRevSum l := by
  induction l with
  | nil => simp [aggRevSum]
  | cons kv rest ih =>
    simp only [List.map_cons, aggRevSum, List.sum_cons] at ih ⊢
    rw [round2_cents (h kv (by simp))]
    rw [ih (fun e he => h e (by simp [he]))]

theorem cents_revenueByKey (key : Booking → String) (l : List Booking)
    (hl : ∀ b ∈ l, Cents (parse_price (b.price.getD "0"))) :
    ∀ e ∈ revenueByKey key l, Cents e.2.revenue := by
  unfold revenueByKey
  exact cents_revenueByKey_aux key l [] hl (by simp)

theorem assocSet_not_mem {β : Type} (l : List (String × β)) (k : String) (v : β)
    (h : k ∉ keysOf l) : assocSet l k v = l ++ [(k, v)] := by
  induction l with
  | nil => simp [assocSet]
  | cons kv rest ih =>
    obtain ⟨k', v'⟩ := kv
    simp only [keysOf, List.map_cons, List.mem_cons] at h
    push_neg at h
    simp only [assocSet, if_neg (fun hh : k' = k => h.1 hh.symm), List.cons_append]
    rw [ih (by simpa [keysOf] using h.2)]

theorem foldl_assocSet_eq {β γ : Type} (idf : β → String) (vf : β → γ)
    (l : List β) (acc : List (String × γ))
    (hnd : (l.map idf).Nodup) (hdisj : ∀ b ∈ l, idf b ∉ keysOf acc) :
    l.foldl (fun a r => assocSet a (idf r) (vf r)) acc
      = acc ++ l.map (fun r => (idf r, vf r)) := by
  induction l generalizing acc with
  | nil => simp
  | cons r t ih =>
    simp only [List.map_cons, List.nodup_cons] at hnd
    simp only [List.foldl_cons, List.map_cons]
    rw [assocSet_not_mem acc (idf r) (vf r) (hdisj r (by simp))]
    rw [ih (acc ++ [(idf r, vf r)]) hnd.2]
    · simp
    · intro b hb
      simp only [keysOf, List.map_append, List.mem_append, List.map_cons, List.map_nil,
        List.mem_singleton]
      push_neg
      refine ⟨?_, ?_⟩
      · have := hdisj b (by simp [hb])
        simpa [keysOf] using this
      · intro hh
        exact hnd.1 (hh ▸ List.mem_map_of_mem idf hb)

/-! ## Format/parse round-trip for canonical timestamps -/

theorem digit_facts : ∀ k, k < 10 → ((dChar k).isDigit = true ∧ dVal (dChar k) = k) := by
  decide

theorem num2_pad (n : Nat) (h : n < 100) :
    num2 (dChar (n / 10)) (dChar (n % 10)) = some n := by
  obtain ⟨d1, v1⟩ := digit_facts (n / 10) (by omega)
  obtain ⟨d2, v2⟩ := digit_facts (n % 10) (by omega)
  unfold num2
  rw [d1, d2]
  simp only [Bool.and_self, if_pos]
  rw [v1, v2]
  congr 1
  omega

theorem num4_pad (n : Nat) (h : n < 10000) :
    num4 (dChar (n / 1000)) (dChar (n / 100 % 10)) (dChar (n / 10 % 10)) (dChar (n % 10))
      = some n := by
  obtain ⟨d1, v1⟩ := digit_facts (n / 1000) (by omega)
  obtain ⟨d2, v2⟩ := digit_facts (n / 100 % 10) (by omega)
  obtain ⟨d3, v3⟩ := digit_facts (n / 10 % 10) (by omega)
  obtain ⟨d4, v4⟩ := digit_facts (n % 10) (by omega)
  unfold num4
  rw [d1, d2, d3, d4]
  simp only [Bool.and_self, if_pos]
  rw [v1, v2, v3, v4]
  congr 1
  omega

theorem daysInMonth_le_31 (y m : Nat) : daysInMonth y m ≤ 31 := by
  unfold daysInMonth
  split_ifs <;> omega

theorem one_le_daysInMonth (y m : Nat) : 1 ≤ daysInMonth y m := by
  unfold daysInMonth
  split_ifs <;> omega

theorem parse_fmtIso (dt : DT) (hv : validDT dt) (hy1 : 1 ≤ dt.y) (hy9 : dt.y ≤ 9999) :
    parseDateTime19 (fmtIso dt) = some dt := by
  obtain ⟨y, m, d, hh, mi, ss⟩ := dt
  have hv' : (1 ≤ m ∧ m ≤ 12 ∧ 1 ≤ d ∧ d ≤ daysInMonth y m) ∧ hh ≤ 23 ∧ mi ≤ 59 ∧ ss ≤ 59 := hv
  have hy1' : 1 ≤ y := hy1
  have hy9' : y ≤ 9999 := hy9
  obtain ⟨⟨hm1, hm2, hd1, hd2⟩, hh23, hmi59, hss59⟩ := hv'
  have h31 := daysInMonth_le_31 y m
  simp only [fmtIso, pad4l, pad2l, List.cons_append, List.nil_append, parseDateTime19]
  simp only [parseDT19L]
  rw [if_pos (by simp)]
  rw [num4_pad y (by omega),
    num2_pad m (by omega),
    num2_pad d (by omega),
    num2_pad hh (by omega),
    num2_pad mi (by omega),
    num2_pad ss (by omega)]
  dsimp only
  rw [if_pos ⟨hy1', ⟨hm1, hm2, hd1, hd2⟩, hh23, hmi59, hss59⟩]

theorem fmtIso_ne_empty (dt : DT) : fmtIso dt ≠ "" := by
  simp only [fmtIso, pad4l, pad2l, List.cons_append, List.nil_append]
  intro h
  have h2 := congrArg String.data h
  simp at h2

theorem hasT_fmtIso (dt : DT) : hasTChar (fmtIso dt) = true := by
  simp only [hasTChar, fmtIso, decide_eq_true_eq]
  simp [List.mem_append]

theorem takeStr19_fmtIso (dt : DT) : takeStr 19 (fmtIso dt) = fmtIso dt := rfl

theorem utc_to_local_dt_fmtIso (tz : Int) (dt : DT) (hv : validDT dt)
    (hy1 : 1 ≤ dt.y) (hy9 : dt.y ≤ 9999) :
    utc_to_local_dt tz (fmtIso dt) = some (addSeconds dt tz) := by
  unfold utc_to_local_dt
  rw [if_neg (by simp [fmtIso_ne_empty dt, hasT_fmtIso dt])]
  rw [takeStr19_fmtIso, parse_fmtIso dt hv hy1 hy9]

/-! Rational arithmetic in Batteries is `@[irreducible]`; re-expose it to the
elaborator so that concrete view computations can be settled by `decide`. -/
unseal Rat.add Rat.mul Rat.inv Rat.sub Rat.ofScientific

/-! ## Claim C7 -/

/-- C7: for every builder input, a failing secondary/optional fetch (the
availability fetch in occupancy-for-date, the player-roster fetch in member
insights) yields exactly the view computed from empty data for that fetch;
the failure is absorbed (the builders are total functions into views, never
propagating an error). -/
theorem c7_secondary_fetch_degrades_to_empty :
    (∀ (tz : Int) (date_str : String) (bookings : List Booking) (e : String),
        execute_get_occupancy_for_date tz date_str bookings (Except.error e)
          = execute_get_occupancy_for_date tz date_str bookings (Except.ok []))
    ∧ (∀ (tz : Int) (start_str end_str err : String) (bookings : List Booking),
        execute_get_member_insights tz start_str end_str (Except.error err) bookings
          = execute_get_member_insights tz start_str end_str (Except.ok []) bookings) :=
  ⟨fun _ _ _ _ => rfl, fun _ _ _ _ _ => rfl⟩

/-! ## Claim C8 -/

/-- C8: price parsing never raises (it is a total function): for every price
string it either returns the parsed float value of the leading
whitespace-separated token, or 0 when the string is empty, has no token,
or the token is not numeric; and the concrete scenario
`_parse_price("10 EUR") + _parse_price("")` is `10.0`, not an error. -/
theorem c8_parse_price_total (s : String) :
    ((∃ tok v, (pySplit s).head? = some tok ∧ pyFloat? tok = some v ∧ parse_price s = v)
      ∨ parse_price s = 0)
    ∧ parse_price "10 EUR" + parse_price "" = 10 := by
  constructor
  · by_cases hs : s = ""
    · right
      simp [parse_price, hs]
    · cases hh : (pySplit s).head? with
      | none =>
        right
        simp [parse_price, hs, hh]
      | some tok =>
        cases hf : pyFloat? tok with
        | none =>
          right
          simp [parse_price, hs, hh, hf]
        | some v =>
          left
          exact ⟨tok, v, rfl, hf, by simp [parse_price, hs, hh, hf]⟩
  · decide

/-! ## Claim C3 -/

/-- C3 counterexample: with the club timezone UTC-5 (America/Cancun,
offset `-18000` seconds) and the UTC timestamp `2024-03-01T07:00:00`,
`_utc_to_local_date(_utc_to_local(t))` yields `2024-02-29`, while the
calendar date implied by `t` (its direct local date) is `2024-03-01`:
the round-trip does not return the implied date, because
`_utc_to_local_date` re-applies the offset to the already-local string. -/
theorem c3_roundtrip_counterexample :
    utc_to_local_date (-18000) (utc_to_local (-18000) "2024-03-01T07:00:00") = "2024-02-29"
    ∧ utc_to_local_date (-18000) "2024-03-01T07:00:00" = "2024-03-01"
    ∧ ("2024-02-29" : String) ≠ "2024-03-01" :=
  ⟨by decide, by decide, by decide⟩

/-- C3 (amended): composing `_utc_to_local` with `_utc_to_local_date`
applies the timezone offset twice: for every offset `z` and timestamp `t`
that parses to local datetime `dt1` (with a formattable year), the
composition equals the calendar date of `dt1` shifted by `z` once more.
It agrees with the date implied by `t` and `z` exactly when that second
shift stays inside the same local day (in particular, for all `t` when
`z = 0`). -/
theorem c3_local_date_roundtrip_amended (z : Int) (t : String) (dt1 : DT)
    (h1 : utc_to_local_dt z t = some dt1) (hv : validDT dt1)
    (hy1 : 1 ≤ dt1.y) (hy9 : dt1.y ≤ 9999) :
    utc_to_local_date z (utc_to_local z t) = fmtDateOnly (addSeconds dt1 z)
    ∧ (0 ≤ todOf dt1 + z → todOf dt1 + z < 86400 →
        utc_to_local_date z (utc_to_local z t) = utc_to_local_date z t) := by
  have hloc : utc_to_local z t = fmtIso dt1 := by
    unfold utc_to_local
    rw [h1]
  have hdate2 : utc_to_local_date z (utc_to_local z t) = fmtDateOnly (addSeconds dt1 z) := by
    rw [hloc]
    unfold utc_to_local_date
    rw [utc_to_local_dt_fmtIso z dt1 hv hy1 hy9]
  refine ⟨hdate2, fun hge hlt => ?_⟩
  rw [hdate2]
  have hmid : addSeconds dt1 z = mkDT (dt1.y, dt1.m, dt1.d) (todOf dt1 + z) := by
    unfold addSeconds
    rw [if_neg (by omega), if_pos hlt]
  rw [hmid]
  unfold utc_to_local_date
  rw [h1]
  rfl

/-- Witness for the amended C3: a concrete timestamp whose second offset
application stays inside the same local day does round-trip. -/
theorem c3_local_date_roundtrip_amended_witness :
    utc_to_local_date (-18000) (utc_to_local (-18000) "2024-03-01T12:00:00")
      = utc_to_local_date (-18000) "2024-03-01T12:00:00" :=
  (c3_local_date_roundtrip_amended (-18000) "2024-03-01T12:00:00" ⟨2024, 3, 1, 7, 0, 0⟩
      (by decide) (by decide) (by decide) (by decide)).2 (by decide) (by decide)

/-! ## Claim C4 -/

/-- C4 counterexample: for an empty booking list the day-of-week
distribution is the empty dict — in particular `"Lunes"` (Monday) is not
present as a key, refuting the claim that all 7 weekday buckets are always
present (with zero counts). -/
theorem c4_dow_counterexample :
    (execute_get_operational_alerts (-18000) "2024-03-01" "2024-03-02"
        []).day_of_week_distribution = []
    ∧ "Lunes" ∉ keysOf (execute_get_operational_alerts (-18000) "2024-03-01" "2024-03-02"
        []).day_of_week_distribution :=
  ⟨by decide, by decide⟩

/-- C4 (amended): `day_of_week_distribution` maps a weekday name to the
number of active bookings whose local start date falls on that weekday, with
a key present only for weekdays that have at least one active booking (in
first-encounter order); every key is drawn from the fixed Monday-first list
`day_names`, and a weekday with no active bookings is absent rather than
present with count zero. -/
theorem c4_dow_distribution_amended (tz : Int) (s e : String) (bs : List Booking)
    (key : String) :
    getCount (execute_get_operational_alerts tz s e bs).day_of_week_distribution key
      = (bs.filter (fun b => !b.is_canceled)).countP
          (fun b => decide (dowNameOf tz b = some key))
    ∧ ((keysOf (execute_get_operational_alerts tz s e bs).day_of_week_distribution).all
        (fun k => day_names.contains k)) = true := by
  constructor
  · show getCount
        ((bs.filter (fun b => !b.is_canceled)).foldl
          (fun acc b => bumpOpt acc (dowNameOf tz b)) []) key = _
    rw [getCount_foldBumpOpt (dowNameOf tz) (bs.filter (fun b => !b.is_canceled)) [] key]
    simp [getCount]
  · rw [List.all_eq_true]
    intro k hk
    have hk' : k ∈ keysOf ((bs.filter (fun b => !b.is_canceled)).foldl
        (fun acc b => bumpOpt acc (dowNameOf tz b)) []) := hk
    rw [keysOf_foldBumpOpt_mem] at hk'
    rcases hk' with h | ⟨b, _, he⟩
    · simp [keysOf] at h
    · unfold dowNameOf at he
      cases hp : parseDate10 (utc_to_local_date tz (b.booking_start_date.getD "")) with
      | none => rw [hp] at he; cases he
      | some ymd =>
        rw [hp] at he
        simp at he
        subst he
        have hw : weekdayOf ymd.1 ymd.2.1 ymd.2.2 < 7 := by
          simp only [weekdayOf]
          exact Nat.mod_lt _ (by norm_num)
        rw [List.contains_iff_exists_mem_beq]
        set w := weekdayOf ymd.1 ymd.2.1 ymd.2.2 with hwdef
        interval_cases w <;> decide

/-! ## Claim C10 -/

/-- C10: `quiet_hours` is empty iff fewer than 5 distinct local hours have
active bookings; and when exactly 5 distinct hours have active bookings,
`peak_hours` and `quiet_hours` are the same 5 (hour, count) entries, so the
same hours are reported as both peak and quiet. -/
theorem c10_quiet_peak_hours (tz : Int) (s e : String) (bs : List Booking) :
    ((execute_get_operational_alerts tz s e bs).quiet_hours = []
      ↔ distinctHours tz bs < 5)
    ∧ (distinctHours tz bs = 5 →
        (execute_get_operational_alerts tz s e bs).peak_hours
          = (execute_get_operational_alerts tz s e bs).quiet_hours) := by
  have hlen : (sortedHoursOf tz bs).length = distinctHours tz bs := by
    unfold sortedHoursOf
    rw [length_sortBy,
      length_foldBump_eq_card
        (fun b => utc_to_local_hour tz (b.booking_start_date.getD ""))
        (bs.filter (fun b => !b.is_canceled))]
    rfl
  have hq : (execute_get_operational_alerts tz s e bs).quiet_hours =
      (if 5 ≤ (sortedHoursOf tz bs).length then
        ((sortedHoursOf tz bs).drop ((sortedHoursOf tz bs).length - 5)).map
          (fun hc => (⟨fmtHour hc.1, hc.2⟩ : HourEntry))
      else []) := rfl
  have hp : (execute_get_operational_alerts tz s e bs).peak_hours =
      ((sortedHoursOf tz bs).take 5).map
        (fun hc => (⟨fmtHour hc.1, hc.2⟩ : HourEntry)) := rfl
  constructor
  · rw [hq]
    constructor
    · intro h
      by_contra h5
      rw [if_pos (by omega)] at h
      have hlen2 := congrArg List.length h
      simp only [List.length_map, List.length_drop, List.length_nil] at hlen2
      omega
    · intro h
      rw [if_neg (by omega)]
  · intro h5
    rw [hp, hq, if_pos (by omega)]
    rw [show (sortedHoursOf tz bs).length - 5 = 0 from by omega, List.drop_zero,
      List.take_of_length_le (by omega)]

/-- Witness for C10: six bookings over exactly 5 distinct local hours; the
quiet list is non-empty and coincides with the peak list. -/
theorem c10_quiet_peak_hours_witness :
    distinctHours (-18000)
        [⟨some "A", some "2024-03-01T10:00:00", some "2024-03-01T11:00:00", false, none, none,
            none, some "10 EUR", none, []⟩,
         ⟨some "A", some "2024-03-01T11:00:00", some "2024-03-01T12:00:00", false, none, none,
            none, some "10 EUR", none, []⟩,
         ⟨some "A", some "2024-03-01T12:00:00", some "2024-03-01T13:00:00", false, none, none,
            none, some "10 EUR", none, []⟩,
         ⟨some "A", some "2024-03-01T13:00:00", some "2024-03-01T14:00:00", false, none, none,
            none, some "10 EUR", none, []⟩,
         ⟨some "A", some "2024-03-01T14:00:00", some "2024-03-01T15:00:00", false, none, none,
            none, some "10 EUR", none, []⟩,
         ⟨some "A", some "2024-03-01T14:30:00", some "2024-03-01T15:30:00", false, none, none,
            none, some "10 EUR", none, []⟩] = 5
    ∧ (execute_get_operational_alerts (-18000) "2024-03-01" "2024-03-02"
        [⟨some "A", some "2024-03-01T10:00:00", some "2024-03-01T11:00:00", false, none, none,
            none, some "10 EUR", none, []⟩,
         ⟨some "A", some "2024-03-01T11:00:00", some "2024-03-01T12:00:00", false, none, none,
            none, some "10 EUR", none, []⟩,
         ⟨some "A", some "2024-03-01T12:00:00", some "2024-03-01T13:00:00", false, none, none,
            none, some "10 EUR", none, []⟩,
         ⟨some "A", some "2024-03-01T13:00:00", some "2024-03-01T14:00:00", false, none, none,
            none, some "10 EUR", none, []⟩,
         ⟨some "A", some "2024-03-01T14:00:00", some "2024-03-01T15:00:00", false, none, none,
            none, some "10 EUR", none, []⟩,
         ⟨some "A", some "2024-03-01T14:30:00", some "2024-03-01T15:30:00", false, none, none,
            none, some "10 EUR", none, []⟩]).peak_hours
       = (execute_get_operational_alerts (-18000) "2024-03-01" "2024-03-02"
        [⟨some "A", some "2024-03-01T10:00:00", some "2024-03-01T11:00:00", false, none, none,
            none, some "10 EUR", none, []⟩,
         ⟨some "A", some "2024-03-01T11:00:00", some "2024-03-01T12:00:00", false, none, none,
            none, some "10 EUR", none, []⟩,
         ⟨some "A", some "2024-03-01T12:00:00", some "2024-03-01T13:00:00", false, none, none,
            none, some "10 EUR", none, []⟩,
         ⟨some "A", some "2024-03-01T13:00:00", some "2024-03-01T14:00:00", false, none, none,
            none, some "10 EUR", none, []⟩,
         ⟨some "A", some "2024-03-01T14:00:00", some "2024-03-01T15:00:00", false, none, none,
            none, some "10 EUR", none, []⟩,
         ⟨some "A", some "2024-03-01T14:30:00", some "2024-03-01T15:30:00", false, none, none,
            none, some "10 EUR", none, []⟩]).quiet_hours :=
  ⟨by decide,
   (c10_quiet_peak_hours (-18000) "2024-03-01" "2024-03-02"
      [⟨some "A", some "2024-03-01T10:00:00", some "2024-03-01T11:00:00", false, none, none,
          none, some "10 EUR", none, []⟩,
       ⟨some "A", some "2024-03-01T11:00:00", some "2024-03-01T12:00:00", false, none, none,
          none, some "10 EUR", none, []⟩,
       ⟨some "A", some "2024-03-01T12:00:00", some "2024-03-01T13:00:00", false, none, none,
          none, some "10 EUR", none, []⟩,
       ⟨some "A", some "2024-03-01T13:00:00", some "2024-03-01T14:00:00", false, none, none,
          none, some "10 EUR", none, []⟩,
       ⟨some "A", some "2024-03-01T14:00:00", some "2024-03-01T15:00:00", false, none, none,
          none, some "10 EUR", none, []⟩,
       ⟨some "A", some "2024-03-01T14:30:00", some "2024-03-01T15:30:00", false, none, none,
          none, some "10 EUR", none, []⟩]).2 (by decide)⟩

/-! ## Claim C9 -/

theorem extract_fold_blank (ps : List Participant) (acc : List String)
    (h : ∀ p ∈ ps, pyStrip (p.name.getD "") = "") :
    ps.foldl
      (fun acc p => let n := pyStrip (p.name.getD ""); if n ≠ "" then acc ++ [n] else acc)
      acc = acc := by
  induction ps generalizing acc with
  | nil => simp
  | cons p t ih =>
    simp only [List.foldl_cons]
    rw [show (let n := pyStrip (p.name.getD ""); if n ≠ "" then acc ++ [n] else acc) = acc from by
      simp [h p (by simp)]]
    exact ih acc (fun p' hp' => h p' (by simp [hp']))

theorem extract_participants_blank (b : Booking)
    (h : ∀ p ∈ b.participants, pyStrip (p.name.getD "") = "") :
    extract_participants b = ["Desconocido"] := by
  unfold extract_participants
  rw [extract_fold_blank b.participants [] h]
  simp

/-- C9: a booking whose participant list has no non-empty (stripped) names
gets the single placeholder player name `"Desconocido"`, and consequently
any non-empty `player_name` filter whose lowercase form is a substring of
`"desconocido"` matches the booking: it appears in the booking-details
results even though none of its real participants bear that name. -/
theorem c9_desconocido_filter_matches (tz : Int) (date_str : String)
    (bookings : List Booking) (b : Booking) (filt : String)
    (hmem : b ∈ bookings) (hc : b.is_canceled = false)
    (hblank : ∀ p ∈ b.participants, pyStrip (p.name.getD "") = "")
    (hf : filt ≠ "") (hsub : occursIn (lowerS filt) "desconocido" = true) :
    entryOf tz b ∈
        (execute_get_booking_details tz date_str bookings none (some filt) false).bookings
    ∧ (entryOf tz b).players = ["Desconocido"] := by
  have hplayers : extract_participants b = ["Desconocido"] := extract_participants_blank b hblank
  have hlow : lowerS "Desconocido" = "desconocido" := by decide
  have hkeep : keepBooking false none (some filt) b = true := by
    unfold keepBooking
    rw [hplayers]
    simp [hc, hf, hlow, hsub]
  constructor
  · show entryOf tz b ∈ sortBy (fun a b => pairLt (a.court, a.start_iso) (b.court, b.start_iso))
        ((bookings.filter (keepBooking false none (some filt))).map (entryOf tz))
    rw [mem_sortBy]
    exact List.mem_map_of_mem (entryOf tz) (List.mem_filter.mpr ⟨hmem, hkeep⟩)
  · show extract_participants b = ["Desconocido"]
    exact hplayers

/-- Witness for C9: a booking whose only participant has a blank name is
matched by the filter `"Desc"`. -/
theorem c9_desconocido_filter_matches_witness :
    entryOf (-18000)
        ⟨some "Hirostar", some "2024-03-01T15:00:00", some "2024-03-01T16:30:00", false,
          none, none, some "PAID", some "30 EUR", none, [⟨some "  ", none, none, some "p1"⟩]⟩ ∈
      (execute_get_booking_details (-18000) "2024-03-01"
        [⟨some "Hirostar", some "2024-03-01T15:00:00", some "2024-03-01T16:30:00", false,
          none, none, some "PAID", some "30 EUR", none, [⟨some "  ", none, none, some "p1"⟩]⟩]
        none (some "Desc") false).bookings :=
  (c9_desconocido_filter_matches (-18000) "2024-03-01"
    [⟨some "Hirostar", some "2024-03-01T15:00:00", some "2024-03-01T16:30:00", false,
      none, none, some "PAID", some "30 EUR", none, [⟨some "  ", none, none, some "p1"⟩]⟩]
    ⟨some "Hirostar", some "2024-03-01T15:00:00", some "2024-03-01T16:30:00", false,
      none, none, some "PAID", some "30 EUR", none, [⟨some "  ", none, none, some "p1"⟩]⟩
    "Desc" (by simp) rfl (by decide) (by decide) (by decide)).1

/-! ## Claim C2 -/

/-- C2 counterexample: two active bookings on different courts with
different payment statuses, each priced `"10.004 EUR"` (a sub-cent amount).
The output `total_revenue` is `round(20.008, 2) = 20.01`, while the rounded
per-court revenues are `10.0` each, summing to `20.0 ≠ 20.01` (and likewise
for the per-payment-status figures): the rounded output figures are not
cross-aggregation consistent. -/
theorem c2_cross_aggregation_counterexample :
    (execute_get_revenue_summary (-18000) "2024-03-01" "2024-03-02"
        [mkB "A" "PAID" "10.004 EUR" "2024-03-01T15:00:00",
         mkB "B" "UNPAID" "10.004 EUR" "2024-03-01T16:00:00"]).total_revenue = 2001 / 100
    ∧ aggRevSum (execute_get_revenue_summary (-18000) "2024-03-01" "2024-03-02"
        [mkB "A" "PAID" "10.004 EUR" "2024-03-01T15:00:00",
         mkB "B" "UNPAID" "10.004 EUR" "2024-03-01T16:00:00"]).by_court = 20
    ∧ aggRevSum (execute_get_revenue_summary (-18000) "2024-03-01" "2024-03-02"
        [mkB "A" "PAID" "10.004 EUR" "2024-03-01T15:00:00",
         mkB "B" "UNPAID" "10.004 EUR" "2024-03-01T16:00:00"]).by_payment_status = 20
    ∧ (execute_get_revenue_summary (-18000) "2024-03-01" "2024-03-02"
        [mkB "A" "PAID" "10.004 EUR" "2024-03-01T15:00:00",
         mkB "B" "UNPAID" "10.004 EUR" "2024-03-01T16:00:00"]).total_revenue
        ≠ aggRevSum (execute_get_revenue_summary (-18000) "2024-03-01" "2024-03-02"
        [mkB "A" "PAID" "10.004 EUR" "2024-03-01T15:00:00",
         mkB "B" "UNPAID" "10.004 EUR" "2024-03-01T16:00:00"]).by_court :=
  ⟨by decide, by decide, by decide, by decide⟩

/-- C2 (amended): revenue summation is carried out in full precision and the
totals are cross-aggregation consistent before rounding: the full-precision
sum of per-court group revenues and of per-payment-status group revenues
both equal the full-precision total, whose 2-decimal rounding is the output
`total_revenue`.  The rounded output figures themselves agree (the claim as
originally stated) whenever every parsed price is an exact multiple of a
cent. -/
theorem c2_cross_aggregation_amended (tz : Int) (start_str end_str : String)
    (bookings : List Booking) :
    aggRevSum (revenueByKey courtKey (bookings.filter (fun b => !b.is_canceled)))
        = ((bookings.filter (fun b => !b.is_canceled)).map
            (fun b => parse_price (b.price.getD "0"))).sum
    ∧ aggRevSum (revenueByKey payKey (bookings.filter (fun b => !b.is_canceled)))
        = ((bookings.filter (fun b => !b.is_canceled)).map
            (fun b => parse_price (b.price.getD "0"))).sum
    ∧ (execute_get_revenue_summary tz start_str end_str bookings).total_revenue
        = round2 (((bookings.filter (fun b => !b.is_canceled)).map
            (fun b => parse_price (b.price.getD "0"))).sum)
    ∧ ((∀ b ∈ bookings.filter (fun b => !b.is_canceled),
          Cents (parse_price (b.price.getD "0"))) →
        (execute_get_revenue_summary tz start_str end_str bookings).total_revenue
            = aggRevSum (execute_get_revenue_summary tz start_str end_str bookings).by_court
        ∧ (execute_get_revenue_summary tz start_str end_str bookings).total_revenue
            = aggRevSum
                (execute_get_revenue_summary tz start_str end_str bookings).by_payment_status) := by
  refine ⟨aggRevSum_revenueByKey courtKey _, aggRevSum_revenueByKey payKey _, rfl, ?_⟩
  intro hcents
  have hc1 := cents_revenueByKey courtKey (bookings.filter (fun b => !b.is_canceled)) hcents
  have hc2 := cents_revenueByKey payKey (bookings.filter (fun b => !b.is_canceled)) hcents
  have htotcents : Cents (((bookings.filter (fun b => !b.is_canceled)).map
      (fun b => parse_price (b.price.getD "0"))).sum) := by
    apply cents_sum
    intro q hq
    rw [List.mem_map] at hq
    obtain ⟨b, hb, rfl⟩ := hq
    exact hcents b hb
  have htot : (execute_get_revenue_summary tz start_str end_str bookings).total_revenue
      = round2 (((bookings.filter (fun b => !b.is_canceled)).map
          (fun b => parse_price (b.price.getD "0"))).sum) := rfl
  have hbc : (execute_get_revenue_summary tz start_str end_str bookings).by_court
      = (revenueByKey courtKey (bookings.filter (fun b => !b.is_canceled))).map
          (fun kv => (kv.1, (⟨kv.2.count, round2 kv.2.revenue⟩ : Agg))) := rfl
  have hbp : (execute_get_revenue_summary tz start_str end_str bookings).by_payment_status
      = (revenueByKey payKey (bookings.filter (fun b => !b.is_canceled))).map
          (fun kv => (kv.1, (⟨kv.2.count, round2 kv.2.revenue⟩ : Agg))) := rfl
  constructor
  · rw [htot, hbc, round2_cents htotcents, aggRevSum_map_round2 _ hc1,
      aggRevSum_revenueByKey]
  · rw [htot, hbp, round2_cents htotcents, aggRevSum_map_round2 _ hc2,
      aggRevSum_revenueByKey]

/-- Witness for the amended C2: with cent-precision prices the rounded
output figures are cross-aggregation consistent. -/
theorem c2_cross_aggregation_amended_witness :
    (execute_get_revenue_summary (-18000) "2024-03-01" "2024-03-02"
        [mkB "A" "PAID" "10.50 EUR" "2024-03-01T15:00:00",
         mkB "B" "UNPAID" "20.25 EUR" "2024-03-01T16:00:00"]).total_revenue
      = aggRevSum (execute_get_revenue_summary (-18000) "2024-03-01" "2024-03-02"
        [mkB "A" "PAID" "10.50 EUR" "2024-03-01T15:00:00",
         mkB "B" "UNPAID" "20.25 EUR" "2024-03-01T16:00:00"]).by_court :=
  ((c2_cross_aggregation_amended (-18000) "2024-03-01" "2024-03-02"
      [mkB "A" "PAID" "10.50 EUR" "2024-03-01T15:00:00",
       mkB "B" "UNPAID" "20.25 EUR" "2024-03-01T16:00:00"]).2.2.2
    (by
      intro b hb
      have hb' : b = mkB "A" "PAID" "10.50 EUR" "2024-03-01T15:00:00"
          ∨ b = mkB "B" "UNPAID" "20.25 EUR" "2024-03-01T16:00:00" := by
        simpa [mkB] using hb
      rcases hb' with rfl | rfl
      · exact ⟨1050, by decide⟩
      · exact ⟨2025, by decide⟩)).1

/-! ## Claim C1 -/

/-- C1 counterexample: one active booking and an availability result whose
two entries share the resource id `"r"` (1 slot, then 0 slots).  The dict
assignment overwrites the earlier entry, leaving 0 available slots, so the
view reports 100.0% occupancy, while the claim's formula with `available` =
the total number of availability slots (1) gives `round(1/2*100, 1) = 50.0`. -/
theorem c1_occupancy_counterexample :
    (execute_get_occupancy_for_date (-18000) "2024-03-01"
        [mkB "A" "PAID" "10 EUR" "2024-03-01T15:00:00"]
        (Except.ok [⟨some "r", [⟨some "2024-03-01T09:00:00", some 60⟩]⟩,
          ⟨some "r", []⟩])).occupancy_percentage = 100
    ∧ bookedCount [mkB "A" "PAID" "10 EUR" "2024-03-01T15:00:00"] = 1
    ∧ (([⟨some "r", [⟨some "2024-03-01T09:00:00", some 60⟩]⟩,
          (⟨some "r", []⟩ : Resource)].map (fun r => r.slots.length)).sum = 1)
    ∧ round1 ((1 : ℚ) / ((1 : ℚ) + (1 : ℚ)) * 100) = 50
    ∧ ((100 : ℚ) ≠ 50) :=
  ⟨by decide, by decide, by decide, by decide, by decide⟩

/-- C1 (amended): `occupancy_percentage` equals
`round(booked / (booked + available) * 100, 1)` where `booked` is the number
of non-canceled bookings and `available` counts the slots of the
availability dict keyed by resource id (a repeated resource id overwrites
its earlier entry); it is 0 when `booked + available = 0` and always lies in
[0, 100].  When the resource ids of the availability result are pairwise
distinct — the normal case — `available` is exactly the total number of
availability slots, recovering the claim as stated. -/
theorem c1_occupancy_amended (tz : Int) (date_str : String) (bookings : List Booking)
    (availRes : Except String (List Resource)) :
    (bookedCount bookings + availCount availRes = 0 →
      (execute_get_occupancy_for_date tz date_str bookings availRes).occupancy_percentage = 0)
    ∧ (0 < bookedCount bookings + availCount availRes →
      (execute_get_occupancy_for_date tz date_str bookings availRes).occupancy_percentage
        = round1 ((bookedCount bookings : ℚ)
            / ((bookedCount bookings : ℚ) + (availCount availRes : ℚ)) * 100))
    ∧ 0 ≤ (execute_get_occupancy_for_date tz date_str bookings availRes).occupancy_percentage
    ∧ (execute_get_occupancy_for_date tz date_str bookings availRes).occupancy_percentage ≤ 100
    ∧ (((availResources availRes).map (fun r => r.resource_id.getD "Desconocido")).Nodup →
      availCount availRes = ((availResources availRes).map (fun r => r.slots.length)).sum) := by
  have hocc : (execute_get_occupancy_for_date tz date_str bookings availRes).occupancy_percentage
      = if 0 < bookedCount bookings + availCount availRes then
          round1 ((bookedCount bookings : ℚ)
            / ((bookedCount bookings : ℚ) + (availCount availRes : ℚ)) * 100)
        else 0 := rfl
  refine ⟨?_, ?_, ?_, ?_, ?_⟩
  · intro h
    rw [hocc, if_neg (by omega)]
  · intro h
    rw [hocc, if_pos h]
  · rw [hocc]
    split_ifs with h
    · have hden : (0 : ℚ) < (bookedCount bookings : ℚ) + (availCount availRes : ℚ) := by
        have : (0 : ℚ) < ((bookedCount bookings + availCount availRes : ℕ) : ℚ) := by
          exact_mod_cast h
        push_cast at this
        linarith
      have hq0 : (0 : ℚ) ≤ (bookedCount bookings : ℚ)
          / ((bookedCount bookings : ℚ) + (availCount availRes : ℚ)) * 100 := by
        apply mul_nonneg
        · exact div_nonneg (Nat.cast_nonneg _) (le_of_lt hden)
        · norm_num
      have h0 : (0 : ℤ) ≤ rhe ((bookedCount bookings : ℚ)
          / ((bookedCount bookings : ℚ) + (availCount availRes : ℚ)) * 100 * 10) := by
        apply le_rhe_of_le
        push_cast
        nlinarith
      unfold round1
      have h0' : (0 : ℚ) ≤ (rhe ((bookedCount bookings : ℚ)
          / ((bookedCount bookings : ℚ) + (availCount availRes : ℚ)) * 100 * 10) : ℚ) := by
        exact_mod_cast h0
      linarith
    · norm_num
  · rw [hocc]
    split_ifs with h
    · have hden : (0 : ℚ) < (bookedCount bookings : ℚ) + (availCount availRes : ℚ) := by
        have : (0 : ℚ) < ((bookedCount bookings + availCount availRes : ℕ) : ℚ) := by
          exact_mod_cast h
        push_cast at this
        linarith
      have hq100 : (bookedCount bookings : ℚ)
          / ((bookedCount bookings : ℚ) + (availCount availRes : ℚ)) * 100 ≤ 100 := by
        have hle : (bookedCount bookings : ℚ)
            ≤ (bookedCount bookings : ℚ) + (availCount availRes : ℚ) := by
          have : (0 : ℚ) ≤ (availCount availRes : ℚ) := Nat.cast_nonneg _
          linarith
        have hdiv : (bookedCount bookings : ℚ)
            / ((bookedCount bookings : ℚ) + (availCount availRes : ℚ)) ≤ 1 :=
          (div_le_one hden).mpr hle
        nlinarith
      have h1000 : rhe ((bookedCount bookings : ℚ)
          / ((bookedCount bookings : ℚ) + (availCount availRes : ℚ)) * 100 * 10)
          ≤ (1000 : ℤ) := by
        apply rhe_le_of_le
        push_cast
        nlinarith
      unfold round1
      have h1000' : (rhe ((bookedCount bookings : ℚ)
          / ((bookedCount bookings : ℚ) + (availCount availRes : ℚ)) * 100 * 10) : ℚ)
          ≤ 1000 := by
        exact_mod_cast h1000
      linarith
    · norm_num
  · intro hnd
    unfold availCount availDict
    rw [foldl_assocSet_eq (fun r => r.resource_id.getD "Desconocido")
      (fun r => r.slots.map (fun s => (s.start_time, s.duration.getD 0)))
      (availResources availRes) [] hnd (by simp [keysOf])]
    simp [List.map_map, Function.comp_def, List.length_map]

/-- Witness for the amended C1, matching the spec's concrete scenario: 3
active bookings on one court and 2 available slots give 60.0% occupancy,
which is the claimed formula at `booked = 3`, `available = 2`. -/
theorem c1_occupancy_amended_witness :
    0 < bookedCount
        [mkB "Hirostar" "PAID" "10 EUR" "2024-03-01T15:00:00",
         mkB "Hirostar" "PAID" "10 EUR" "2024-03-01T16:00:00",
         mkB "Hirostar" "PAID" "10 EUR" "2024-03-01T17:00:00"]
        + availCount (Except.ok [⟨some "Hirostar",
            [⟨some "2024-03-01T09:00:00", some 60⟩, ⟨some "2024-03-01T10:00:00", some 60⟩]⟩])
    ∧ (execute_get_occupancy_for_date (-18000) "2024-03-01"
        [mkB "Hirostar" "PAID" "10 EUR" "2024-03-01T15:00:00",
         mkB "Hirostar" "PAID" "10 EUR" "2024-03-01T16:00:00",
         mkB "Hirostar" "PAID" "10 EUR" "2024-03-01T17:00:00"]
        (Except.ok [⟨some "Hirostar",
            [⟨some "2024-03-01T09:00:00", some 60⟩, ⟨some "2024-03-01T10:00:00", some 60⟩]⟩])).occupancy_percentage
      = round1 ((bookedCount
            [mkB "Hirostar" "PAID" "10 EUR" "2024-03-01T15:00:00",
             mkB "Hirostar" "PAID" "10 EUR" "2024-03-01T16:00:00",
             mkB "Hirostar" "PAID" "10 EUR" "2024-03-01T17:00:00"] : ℚ)
          / ((bookedCount
            [mkB "Hirostar" "PAID" "10 EUR" "2024-03-01T15:00:00",
             mkB "Hirostar" "PAID" "10 EUR" "2024-03-01T16:00:00",
             mkB "Hirostar" "PAID" "10 EUR" "2024-03-01T17:00:00"] : ℚ)
            + (availCount (Except.ok [⟨some "Hirostar",
                [⟨some "2024-03-01T09:00:00", some 60⟩,
                 ⟨some "2024-03-01T10:00:00", some 60⟩]⟩]) : ℚ)) * 100)
    ∧ (execute_get_occupancy_for_date (-18000) "2024-03-01"
        [mkB "Hirostar" "PAID" "10 EUR" "2024-03-01T15:00:00",
         mkB "Hirostar" "PAID" "10 EUR" "2024-03-01T16:00:00",
         mkB "Hirostar" "PAID" "10 EUR" "2024-03-01T17:00:00"]
        (Except.ok [⟨some "Hirostar",
            [⟨some "2024-03-01T09:00:00", some 60⟩,
             ⟨some "2024-03-01T10:00:00", some 60⟩]⟩])).occupancy_percentage = 60 :=
  ⟨by decide,
   (c1_occupancy_amended (-18000) "2024-03-01"
      [mkB "Hirostar" "PAID" "10 EUR" "2024-03-01T15:00:00",
       mkB "Hirostar" "PAID" "10 EUR" "2024-03-01T16:00:00",
       mkB "Hirostar" "PAID" "10 EUR" "2024-03-01T17:00:00"]
      (Except.ok [⟨some "Hirostar",
          [⟨some "2024-03-01T09:00:00", some 60⟩,
           ⟨some "2024-03-01T10:00:00", some 60⟩]⟩])).2.1 (by decide),
   by decide⟩


/-! ## Orchestrator lemmas (claims C5 and C6) -/

theorem processCalls_msgs_shape (jsonOK : String → Bool)
    (execO : ToolCall → Except String String) (cs : List ToolCall) :
    ∀ msgs charts, ∃ t,
      pcMsgs (processCalls jsonOK execO cs msgs charts) = msgs ++ t
      ∧ ∀ m ∈ t, m.role = "tool" := by
  induction cs with
  | nil =>
    intro msgs charts
    exact ⟨[], by simp [processCalls, pcMsgs], by simp⟩
  | cons c rest ih =>
    intro msgs charts
    by_cases hj : jsonOK c.args
    · obtain ⟨t, h1, h2⟩ := ih (msgs ++ [⟨"tool", (runTool execO c).1⟩])
        (charts ++ (match (runTool execO c).2 with | some ch => [ch] | none => []))

      refine ⟨⟨"tool", (runTool execO c).1⟩ :: t, ?_, ?_⟩
      · rw [show processCalls jsonOK execO (c :: rest) msgs charts
            = processCalls jsonOK execO rest (msgs ++ [⟨"tool", (runTool execO c).1⟩])
                (charts ++ (match (runTool execO c).2 with | some ch => [ch] | none => []))
            from by simp [processCalls, hj]]
        rw [h1]
        simp
      · intro m hm
        rcases List.mem_cons.mp hm with hm | hm
        · rw [hm]
        · exact h2 m hm
    · refine ⟨[], ?_, by simp⟩
      rw [show processCalls jsonOK execO (c :: rest) msgs charts = .error msgs
          from by simp [processCalls, hj]]
      simp [pcMsgs]

theorem processCalls_ok_of_valid (jsonOK : String → Bool)
    (execO : ToolCall → Except String String) (cs : List ToolCall)
    (hjson : ∀ c ∈ cs, jsonOK c.args = true) :
    ∀ msgs charts, processCalls jsonOK execO cs msgs charts
      = .ok (runCalls execO cs msgs charts) := by
  induction cs with
  | nil => intro msgs charts; rfl
  | cons c rest ih =>
    intro msgs charts
    rw [show processCalls jsonOK execO (c :: rest) msgs charts
        = processCalls jsonOK execO rest (msgs ++ [⟨"tool", (runTool execO c).1⟩])
            (charts ++ (match (runTool execO c).2 with | some ch => [ch] | none => []))
        from by simp [processCalls, hjson c (by simp)]]
    rw [ih (fun c' hc' => hjson c' (by simp [hc']))]
    rfl

theorem chatLoop_calls_le (oracle : List Msg → ModelReply)
    (execO : ToolCall → Except String String) (jsonOK : String → Bool) :
    ∀ n msgs charts, (chatLoop oracle execO jsonOK n msgs charts).callsOf ≤ n := by
  intro n
  induction n with
  | zero => intro msgs charts; simp [chatLoop, TurnResult.callsOf]
  | succ n ih =>
    intro msgs charts
    simp only [chatLoop]
    by_cases h : (oracle msgs).calls.isEmpty
    · simp [h, TurnResult.callsOf]
    · simp only [h, Bool.false_eq_true, if_false]
      cases hpc : processCalls jsonOK execO (oracle msgs).calls
          (msgs ++ [⟨"assistant", (oracle msgs).content⟩]) charts with
      | error m => simp [TurnResult.callsOf]
      | ok pr =>
        dsimp only
        have hle := ih pr.1 pr.2
        cases hrest : chatLoop oracle execO jsonOK n pr.1 pr.2 with
        | ok r =>
          rw [hrest] at hle
          dsimp only
          simp only [TurnResult.callsOf] at hle ⊢
          omega
        | exn m k =>
          rw [hrest] at hle
          dsimp only
          simp only [TurnResult.callsOf] at hle ⊢
          omega

theorem chatLoop_appends (oracle : List Msg → ModelReply)
    (execO : ToolCall → Except String String) (jsonOK : String → Bool) :
    ∀ n msgs charts, ∃ t,
      (chatLoop oracle execO jsonOK n msgs charts).messagesOf = msgs ++ t
      ∧ ∀ m ∈ t, m.role = "assistant" ∨ m.role = "tool" := by
  intro n
  induction n with
  | zero =>
    intro msgs charts
    exact ⟨[], by simp [chatLoop, TurnResult.messagesOf], by simp⟩
  | succ n ih =>
    intro msgs charts
    simp only [chatLoop]
    by_cases h : (oracle msgs).calls.isEmpty
    · refine ⟨[⟨"assistant", (oracle msgs).content⟩], ?_, ?_⟩
      · simp [h, TurnResult.messagesOf]
      · intro m hm
        simp only [List.mem_singleton] at hm
        rw [hm]
        exact Or.inl rfl
    · simp only [h, Bool.false_eq_true, if_false]
      obtain ⟨t1, hp1, hp3⟩ := processCalls_msgs_shape jsonOK execO (oracle msgs).calls
        (msgs ++ [⟨"assistant", (oracle msgs).content⟩]) charts
      cases hpc : processCalls jsonOK execO (oracle msgs).calls
          (msgs ++ [⟨"assistant", (oracle msgs).content⟩]) charts with
      | error m =>
        dsimp only
        rw [hpc] at hp1
        simp only [pcMsgs] at hp1
        refine ⟨⟨"assistant", (oracle msgs).content⟩ :: t1, ?_, ?_⟩
        · simp only [TurnResult.messagesOf]
          rw [hp1]
          simp
        · intro m' hm'
          rcases List.mem_cons.mp hm' with hm' | hm'
          · rw [hm']
            exact Or.inl rfl
          · exact Or.inr (hp3 m' hm')
      | ok pr =>
        dsimp only
        rw [hpc] at hp1
        simp only [pcMsgs] at hp1
        obtain ⟨t2, hc1, hc2⟩ := ih pr.1 pr.2
        have hmsgs : (match chatLoop oracle execO jsonOK n pr.1 pr.2 with
            | .ok rest => TurnResult.ok ⟨rest.text, rest.charts, rest.messages,
                rest.modelCalls + 1⟩
            | .exn m k => TurnResult.exn m (k + 1)).messagesOf
            = (chatLoop oracle execO jsonOK n pr.1 pr.2).messagesOf := by
          cases chatLoop oracle execO jsonOK n pr.1 pr.2 with
          | ok r => rfl
          | exn m k => rfl
        refine ⟨⟨"assistant", (oracle msgs).content⟩ :: (t1 ++ t2), ?_, ?_⟩
        · rw [hmsgs, hc1, hp1]
          simp
        · intro m' hm'
          rcases List.mem_cons.mp hm' with hm' | hm'
          · rw [hm']
            exact Or.inl rfl
          · rcases List.mem_append.mp hm' with hm' | hm'
            · exact Or.inr (hp3 m' hm')
            · exact hc2 m' hm'

theorem chatLoop_all_tool_calls (oracle : List Msg → ModelReply)
    (execO : ToolCall → Except String String) (jsonOK : String → Bool)
    (hall : ∀ h, (oracle h).calls ≠ [])
    (hjson : ∀ h, ∀ c ∈ (oracle h).calls, jsonOK c.args = true) :
    ∀ n msgs charts, chatLoop oracle execO jsonOK n msgs charts
      = .ok ⟨giveUpMessage, (runRounds oracle execO n msgs charts).2,
          (runRounds oracle execO n msgs charts).1, n⟩ := by
  intro n
  induction n with
  | zero => intro msgs charts; rfl
  | succ n ih =>
    intro msgs charts
    have hne : (oracle msgs).calls.isEmpty = false := by
      rw [List.isEmpty_eq_false]
      exact hall msgs
    simp only [chatLoop, hne, Bool.false_eq_true, if_false]
    rw [processCalls_ok_of_valid jsonOK execO (oracle msgs).calls (hjson msgs)]
    dsimp only
    rw [ih]
    rfl

/-! ## Claim C5 -/

/-- C5 counterexample: a model oracle that always requests the (known) tool
`get_revenue_summary` but with the arguments string `"not json"`, on which
`json.loads` raises (modelled by the decode predicate returning `false`).
Every model reply requests tool calls, yet the turn does NOT terminate with
the fallback apology and no chart data is returned: the exception from
`json.loads(tool_call.function.arguments)` (llm_agent.py:833, outside the
`try/except`) escapes `chat()` after the first model call, the history
keeping only the appended user and assistant messages. -/
theorem c5_uncaught_json_counterexample :
    (∀ h : List Msg,
      ((fun _ => (⟨"", [⟨"1", "get_revenue_summary", "not json"⟩]⟩ : ModelReply))
        h).calls ≠ [])
    ∧ chat (fun _ => ⟨"", [⟨"1", "get_revenue_summary", "not json"⟩]⟩)
        (fun _ => Except.ok "res") (fun _ => false) [⟨"system", "sys"⟩] "hola"
      = TurnResult.exn [⟨"system", "sys"⟩, ⟨"user", "hola"⟩, ⟨"assistant", ""⟩] 1
    ∧ (∀ r : ChatResult,
        chat (fun _ => ⟨"", [⟨"1", "get_revenue_summary", "not json"⟩]⟩)
          (fun _ => Except.ok "res") (fun _ => false) [⟨"system", "sys"⟩] "hola"
          ≠ TurnResult.ok r) := by
  refine ⟨fun _ => List.cons_ne_nil _ _, by decide, fun r h => ?_⟩
  rw [show chat (fun _ => ⟨"", [⟨"1", "get_revenue_summary", "not json"⟩]⟩)
      (fun _ => Except.ok "res") (fun _ => false) [⟨"system", "sys"⟩] "hola"
      = TurnResult.exn [⟨"system", "sys"⟩, ⟨"user", "hola"⟩, ⟨"assistant", ""⟩] 1
      from by decide] at h
  cases h

/-- C5 (amended): every chat turn makes at most 5 model round-trips, and
the history is never reset — the post-turn history extends the prior one
even when the turn aborts.  When every model reply requests tool calls AND
every requested call's arguments string decodes as valid JSON, the turn
terminates normally after exactly 5 round-trips with the fixed fallback
apology, the chart data accumulated over the 5 tool-calling rounds, and the
extended history.  Without the decoding condition the conclusion can fail:
an invalid arguments string makes `json.loads` (llm_agent.py:833, outside
the `try/except`) raise out of `chat()`, returning neither the apology nor
the chart data. -/
theorem c5_iteration_cap_amended (oracle : List Msg → ModelReply)
    (execO : ToolCall → Except String String) (jsonOK : String → Bool)
    (msgs : List Msg) (u : String) :
    (chat oracle execO jsonOK msgs u).callsOf ≤ 5
    ∧ (∃ t, (chat oracle execO jsonOK msgs u).messagesOf = msgs ++ ⟨"user", u⟩ :: t)
    ∧ ((∀ h, (oracle h).calls ≠ []) →
       (∀ h, ∀ c ∈ (oracle h).calls, jsonOK c.args = true) →
        chat oracle execO jsonOK msgs u
          = TurnResult.ok ⟨giveUpMessage,
              (runRounds oracle execO 5 (msgs ++ [⟨"user", u⟩]) []).2,
              (runRounds oracle execO 5 (msgs ++ [⟨"user", u⟩]) []).1, 5⟩) := by
  refine ⟨chatLoop_calls_le oracle execO jsonOK 5 (msgs ++ [(⟨"user", u⟩ : Msg)]) [],
    ?_, ?_⟩
  · obtain ⟨t, ht, _⟩ := chatLoop_appends oracle execO jsonOK 5
      (msgs ++ [(⟨"user", u⟩ : Msg)]) []
    refine ⟨t, ?_⟩
    rw [show chat oracle execO jsonOK msgs u
        = chatLoop oracle execO jsonOK 5 (msgs ++ [(⟨"user", u⟩ : Msg)]) [] from rfl, ht]
    simp
  · intro hall hjson
    rw [show chat oracle execO jsonOK msgs u
        = chatLoop oracle execO jsonOK 5 (msgs ++ [(⟨"user", u⟩ : Msg)]) [] from rfl,
      chatLoop_all_tool_calls oracle execO jsonOK hall hjson 5
        (msgs ++ [(⟨"user", u⟩ : Msg)]) []]

/-- Witness for the amended C5: a model oracle that always requests one
valid tool call with decodable arguments exhausts the cap and yields the
apology with the accumulated charts. -/
theorem c5_iteration_cap_amended_witness :
    chat (fun _ => ⟨"", [⟨"1", "get_revenue_summary", "\x7b\x7d"⟩]⟩)
        (fun _ => Except.ok "res") (fun _ => true) [⟨"system", "sys"⟩] "hola"
      = TurnResult.ok ⟨giveUpMessage,
          (runRounds (fun _ => ⟨"", [⟨"1", "get_revenue_summary", "\x7b\x7d"⟩]⟩)
            (fun _ => Except.ok "res") 5 ([⟨"system", "sys"⟩] ++ [⟨"user", "hola"⟩]) []).2,
          (runRounds (fun _ => ⟨"", [⟨"1", "get_revenue_summary", "\x7b\x7d"⟩]⟩)
            (fun _ => Except.ok "res") 5 ([⟨"system", "sys"⟩] ++ [⟨"user", "hola"⟩]) []).1,
          5⟩ :=
  (c5_iteration_cap_amended (fun _ => ⟨"", [⟨"1", "get_revenue_summary", "\x7b\x7d"⟩]⟩)
      (fun _ => Except.ok "res") (fun _ => true) [⟨"system", "sys"⟩] "hola").2.2
    (fun _ => List.cons_ne_nil _ _) (fun _ _ _ => rfl)

/-! ## Claim C6 -/

/-- C6: the conversation history contains exactly one system-instruction
message, always first: this holds for the history built at construction;
it is preserved by every chat turn — including a turn aborted by the
uncaught argument-decoding exception, since a turn only ever appends user,
assistant and tool messages; and `reset_conversation` leaves exactly the
single system message (history length 1), discarding everything else. -/
theorem c6_system_message_invariant (sys : String) (oracle : List Msg → ModelReply)
    (execO : ToolCall → Except String String) (jsonOK : String → Bool)
    (msgs : List Msg) (u : String) :
    sysInvariant (initMessages sys)
    ∧ (sysInvariant msgs → sysInvariant (chat oracle execO jsonOK msgs u).messagesOf)
    ∧ reset_conversation sys = initMessages sys
    ∧ (reset_conversation sys).length = 1
    ∧ sysInvariant (reset_conversation sys) := by
  have hinit : sysInvariant (initMessages sys) := by
    constructor
    · exact ⟨⟨"system", sys⟩, [], rfl, rfl⟩
    · simp [initMessages, List.countP_cons]
  refine ⟨hinit, ?_, rfl, rfl, hinit⟩
  intro hinv
  obtain ⟨⟨m, t0, hm, hrole⟩, hcount⟩ := hinv
  obtain ⟨t, ht, hroles⟩ := chatLoop_appends oracle execO jsonOK 5
    (msgs ++ [(⟨"user", u⟩ : Msg)]) []
  have hmsgs : (chat oracle execO jsonOK msgs u).messagesOf
      = msgs ++ ((⟨"user", u⟩ : Msg) :: t) := by
    rw [show chat oracle execO jsonOK msgs u
        = chatLoop oracle execO jsonOK 5 (msgs ++ [(⟨"user", u⟩ : Msg)]) [] from rfl, ht]
    simp
  constructor
  · refine ⟨m, t0 ++ ⟨"user", u⟩ :: t, ?_, hrole⟩
    rw [hmsgs, hm]
    simp
  · rw [hmsgs, List.countP_append, hcount]
    have hz : ((⟨"user", u⟩ : Msg) :: t).countP (fun m => m.role == "system") = 0 := by
      rw [List.countP_eq_zero]
      intro a ha
      rcases List.mem_cons.mp ha with ha | ha
      · rw [ha]
        show ¬(("user" : String) == "system") = true
        decide
      · rcases hroles a ha with hr | hr <;> rw [hr] <;> decide
    omega

/-- Witness for C6: starting from the constructed history, one chat turn
preserves the invariant. -/
theorem c6_system_message_invariant_witness :
    sysInvariant (chat (fun _ => ⟨"hola!", []⟩) (fun _ => Except.ok "res")
      (fun _ => true) (initMessages "sys") "hola").messagesOf :=
  (c6_system_message_invariant "sys" (fun _ => ⟨"hola!", []⟩) (fun _ => Except.ok "res")
      (fun _ => true) (initMessages "sys") "hola").2.1
    (c6_system_message_invariant "sys" (fun _ => ⟨"hola!", []⟩) (fun _ => Except.ok "res")
      (fun _ => true) (initMessages "sys") "hola").1

end Playtomic
